import Mathlib

/-!
Verification development for the numeric core of a browser statistics
workbench: matrix algebra (determinant with partial pivoting, Gauss-Jordan
inversion), an ordinary-least-squares estimator with its error taxonomy,
and regression diagnostics (Durbin-Watson, VIF, t-distribution p-values).

JavaScript numbers are modelled as exact rationals wherever the source
performs field operations only; values produced through `Math.sqrt` /
`Math.exp` / `Math.log` are modelled in `ℝ`.  The fixed singularity
tolerance `1e-10` of the source is the rational `tol` below.
-/

namespace HyperViz

open Matrix

/-- The singularity tolerance `1e-10` used by the source for pivot checks. -/
def tol : ℚ := 1 / 10000000000

/-- Partial-pivot search of `calculateDeterminant` / `calculateMatrixInverse`
(DataInput.tsx): scan rows `k = i+1 .. n-1` and keep the first row whose
column-`i` entry strictly exceeds the current best in magnitude. -/
def findPivot {n : ℕ} (A : Matrix (Fin n) (Fin n) ℚ) (i : Fin n) : Fin n :=
  ((List.finRange n).drop (i.val + 1)).foldl
    (fun m k => if |A k i| > |A m i| then k else m) i

/-- Row swap `[temp[i], temp[maxRow]] = [temp[maxRow], temp[i]]`. -/
def rowSwap {n : ℕ} (A : Matrix (Fin n) (Fin n) ℚ) (i p : Fin n) :
    Matrix (Fin n) (Fin n) ℚ :=
  fun r c => A (Equiv.swap i p r) c

/-- One elimination sweep of `calculateDeterminant`: for every row `k > i`
subtract `temp[k][i]/temp[i][i]` times row `i`, touching columns `j ≥ i`
only (the source's inner loop starts at `j = i`). -/
def elimBelow {n : ℕ} (A : Matrix (Fin n) (Fin n) ℚ) (i : Fin n) :
    Matrix (Fin n) (Fin n) ℚ :=
  fun r c => if i < r ∧ i ≤ c then A r c - A r i / A i i * A i c else A r c

/-- The Gaussian-elimination loop of `calculateDeterminant` (DataInput.tsx,
used for matrices of size ≥ 4): partial pivoting, one sign flip per swap,
early return `0` when the pivot magnitude is below `tol`.  `fuel` bounds the
remaining iterations (the source loop runs `i = 0 .. n-1`). -/
def gaussDetAux {n : ℕ} : ℕ → ℕ → Matrix (Fin n) (Fin n) ℚ → ℚ → ℚ
  | 0, _, _, acc => acc
  | fuel + 1, i, A, acc =>
    if h : i < n then
      let iF : Fin n := ⟨i, h⟩
      let p := findPivot A iF
      let A1 := if p = iF then A else rowSwap A iF p
      let acc1 := if p = iF then acc else -acc
      if |A1 iF iF| < tol then 0
      else gaussDetAux fuel (i + 1) (elimBelow A1 iF) (acc1 * A1 iF iF)
    else acc

/-- `calculateDeterminant` (DataInput.tsx): closed-form formulas for sizes
1-3, Gaussian elimination with partial pivoting for larger sizes.  (For
`n = 0` the source loop body never runs and `det = 1` is returned.) -/
def calculateDeterminant : {n : ℕ} → Matrix (Fin n) (Fin n) ℚ → ℚ
  | 1, M => M 0 0
  | 2, M => M 0 0 * M 1 1 - M 0 1 * M 1 0
  | 3, M => M 0 0 * (M 1 1 * M 2 2 - M 1 2 * M 2 1) -
      M 0 1 * (M 1 0 * M 2 2 - M 1 2 * M 2 0) +
      M 0 2 * (M 1 0 * M 2 1 - M 1 1 * M 2 0)
  | n, M => gaussDetAux n 0 M 1

/-- Row `i` of the augmented matrix divided by the cached pivot `d`
(`augmented[i][j] /= pivot`). -/
def scaleRow {n : ℕ} (A : Matrix (Fin n) (Fin n) ℚ) (i : Fin n) (d : ℚ) :
    Matrix (Fin n) (Fin n) ℚ :=
  fun r c => if r = i then A r c / d else A r c

/-- For every row `r ≠ i` subtract `f r` times row `i`
(`augmented[k][j] -= factor * augmented[i][j]`, the factor `f` being the
column-`i` entry of the scaled left block). -/
def elimOther {n : ℕ} (A : Matrix (Fin n) (Fin n) ℚ) (f : Fin n → ℚ)
    (i : Fin n) : Matrix (Fin n) (Fin n) ℚ :=
  fun r c => if r = i then A r c else A r c - f r * A i c

/-- The Gauss-Jordan loop of `calculateMatrixInverse` (DataInput.tsx) on the
augmented pair `[L | R]` (initially `[M | I]`): partial pivoting on the left
block, hard failure (`none`, the thrown `Error`) when a pivot magnitude is
below `tol`, row scaled to a unit pivot, then the pivot column eliminated
from every other row of both blocks. -/
def gaussJordanAux {n : ℕ} :
    ℕ → ℕ → Matrix (Fin n) (Fin n) ℚ → Matrix (Fin n) (Fin n) ℚ →
    Option (Matrix (Fin n) (Fin n) ℚ × Matrix (Fin n) (Fin n) ℚ)
  | 0, _, L, R => some (L, R)
  | fuel + 1, i, L, R =>
    if h : i < n then
      let iF : Fin n := ⟨i, h⟩
      let p := findPivot L iF
      let L1 := if p = iF then L else rowSwap L iF p
      let R1 := if p = iF then R else rowSwap R iF p
      if |L1 iF iF| < tol then none
      else
        let piv := L1 iF iF
        let L2 := scaleRow L1 iF piv
        let R2 := scaleRow R1 iF piv
        gaussJordanAux fuel (i + 1) (elimOther L2 (fun r => L2 r iF) iF)
          (elimOther R2 (fun r => L2 r iF) iF)
    else some (L, R)

/-- `calculateMatrixInverse` (DataInput.tsx): Gauss-Jordan elimination on
`[M | I]`; `none` models the thrown singular-matrix `Error`. -/
def calculateMatrixInverse {n : ℕ} (M : Matrix (Fin n) (Fin n) ℚ) :
    Option (Matrix (Fin n) (Fin n) ℚ) :=
  (gaussJordanAux n 0 M 1).map Prod.snd

/-! ### Distribution approximations (DataInput.tsx) -/

/-- The logistic-style closed-form normal-CDF approximation
`0.5 * (1 + sign(z) * sqrt(1 - exp(-2 z² / π)))` written inline at
DataInput.tsx line 427 and DiagnosticsPanel.tsx lines 1661/1681. -/
noncomputable def normalCDFApprox (z : ℝ) : ℝ :=
  0.5 * (1 + Real.sign z * Real.sqrt (1 - Real.exp (-2 * z * z / Real.pi)))

/-- Stirling-formula log-gamma approximation used inside `tDistributionCDF`. -/
noncomputable def logGammaApprox (z : ℝ) : ℝ :=
  (z - 0.5) * Real.log z - z + 0.5 * Real.log (2 * Real.pi)

/-- `tDistributionCDF` (DataInput.tsx): `0.5` for `df ≤ 0`; for `df > 30` the
inline normal approximation; otherwise a beta-function relation built from
`logGammaApprox`, clamped to `[0, 1]`. -/
noncomputable def tDistributionCDF (t df : ℝ) : ℝ :=
  if df ≤ 0 then 0.5
  else if 30 < df then
    0.5 * (1 + Real.sign t * Real.sqrt (1 - Real.exp (-2 * t * t / Real.pi)))
  else
    let x := t / Real.sqrt df
    let a : ℝ := 0.5
    let b : ℝ := 0.5
    let beta := Real.exp (logGammaApprox a + logGammaApprox b -
      logGammaApprox (a + b) + (a - 1) * Real.log x + (b - 1) * Real.log (1 - x))
    let result := if |x| < 1 then 0.5 + Real.sign x * beta * |x| / 2 else 0.5
    max 0 (min 1 result)

/-- `calculatePValue` (DataInput.tsx): two-tailed p-value
`2 * (1 - tDistributionCDF |t| df)`. -/
noncomputable def calculatePValue (tValue df : ℝ) : ℝ :=
  2 * (1 - tDistributionCDF |tValue| df)

/-! ### Data model and OLS estimator (DataInput.tsx `runRegressionImmediate`) -/

/-- A parsed data row: a column-name-indexed record of numbers.  `none`
models an `undefined` / `null` / `NaN` entry. -/
def DataPoint : Type := String → Option ℚ

/-- Reading `row[col]` once the row passed the validity filter. -/
def getV (row : DataPoint) (c : String) : ℚ := (row c).getD 0

/-- `row[col] !== undefined && row[col] !== null && !isNaN(row[col])` for
every selected column. -/
def isValidRow (row : DataPoint) (cols : List String) : Bool :=
  cols.all fun c => (row c).isSome

/-- The `validData` filter of `runRegressionImmediate`: keep rows valid on
the dependent column and every independent column. -/
def validRows (data : List DataPoint) (dep : String) (indeps : List String) :
    List DataPoint :=
  data.filter (isValidRow · (dep :: indeps))

/-- `rows.map(row => row[col])`: one column as a list of numbers. -/
def colVals (rows : List DataPoint) (c : String) : List ℚ :=
  rows.map fun row => getV row c

/-- The error taxonomy surfaced by `runRegressionImmediate`; each constructor
is one of the thrown / early-return error paths of the source. -/
inductive RegError : Type
  /-- line 771: no data, no dependent variable or no independent variables -/
  | invalidSelection : RegError
  /-- line 786: fewer than 2 valid rows -/
  | notEnoughData : RegError
  /-- line 837: `|determinant(XᵗX)| < 1e-10` (multicollinearity message) -/
  | degenerateDesign : RegError
  /-- line 862: degrees of freedom `n - p ≤ 0` -/
  | insufficientData : RegError
  /-- the singular-matrix `Error` thrown inside `calculateMatrixInverse` -/
  | singularMatrix : RegError
deriving DecidableEq

/-- `RegressionResult` (DataInput.tsx).  Fields produced by pure field
arithmetic are rationals; fields flowing through `Math.sqrt` /
`tDistributionCDF` are reals. -/
structure RegressionResult : Type where
  coefficients : List ℚ
  rSquared : ℚ
  adjustedRSquared : ℚ
  mse : ℚ
  residuals : List ℚ
  standardErrors : List ℝ
  tValues : List ℝ
  pValues : List ℝ
  fStatistic : ℚ
  predictions : List ℚ

/-- The design matrix of the multiple-regression path: a prepended constant
`1` column followed by the selected independent columns, over the valid
rows. -/
def designMatrix (valid : List DataPoint) (indeps : List String) :
    Matrix (Fin valid.length) (Fin (indeps.length + 1)) ℚ :=
  fun r c =>
    match c with
    | ⟨0, _⟩ => 1
    | ⟨j + 1, h⟩ => getV (valid.get r) (indeps.get ⟨j, by omega⟩)

/-- Dependent-column values over the valid rows. -/
def yVec (valid : List DataPoint) (dep : String) : Fin valid.length → ℚ :=
  fun r => getV (valid.get r) dep

/-- `XᵗX` of the multiple-regression path. -/
def fitXtX (valid : List DataPoint) (indeps : List String) :
    Matrix (Fin (indeps.length + 1)) (Fin (indeps.length + 1)) ℚ :=
  (designMatrix valid indeps)ᵀ * designMatrix valid indeps

/-- `Xᵗy` of the multiple-regression path. -/
def fitXty (valid : List DataPoint) (dep : String) (indeps : List String) :
    Fin (indeps.length + 1) → ℚ :=
  (designMatrix valid indeps)ᵀ.mulVec (yVec valid dep)

/-- `Σ (yᵢ - ȳ)²`, the `totalSumSquares` of both fit paths
(`y.reduce((sum, val) => sum + Math.pow(val - meanY, 2), 0)`). -/
def totalSS (valid : List DataPoint) (dep : String) : ℚ :=
  let y := colVals valid dep
  let meanY := y.sum / (y.length : ℚ)
  (y.map fun v => (v - meanY) ^ 2).sum

/-- The degrees-of-freedom denominator `y.length - 2` of the
single-regressor path (used for `mse` and the adjusted R²).  The source
divides by it without any sign check. -/
def singleDfDen (n : ℕ) : ℚ := (n : ℚ) - 2

/-- The single-regressor path (DataInput.tsx lines 792-820): slope and
intercept from `simple-statistics`' `linearRegression` closed forms,
`standardErrors` / `tValues` / `pValues` / `fStatistic` hard-coded to
zeros ("Simplified" in the source). -/
def singleVarFit (valid : List DataPoint) (dep xcol : String) :
    RegressionResult :=
  let xValues := colVals valid xcol
  let y := colVals valid dep
  let n := y.length
  let sumX := xValues.sum
  let sumY := y.sum
  let sumXX := (xValues.map fun v => v * v).sum
  let sumXY := ((xValues.zip y).map fun pr => pr.1 * pr.2).sum
  -- simple-statistics `linearRegression`: special case for one point,
  -- otherwise the closed-form slope/intercept
  let m : ℚ :=
    if n = 1 then 0
    else ((n : ℚ) * sumXY - sumX * sumY) / ((n : ℚ) * sumXX - sumX * sumX)
  let b : ℚ :=
    if n = 1 then y.headI
    else sumY / (n : ℚ) - m * sumX / (n : ℚ)
  let predictions := xValues.map fun v => m * v + b
  let residuals := (y.zip predictions).map fun pr => pr.1 - pr.2
  let tss := totalSS valid dep
  let rss := (residuals.map fun e => e * e).sum
  let rSquared := 1 - rss / tss
  { coefficients := [b, m]
    rSquared := rSquared
    adjustedRSquared := 1 - ((1 - rSquared) * ((n : ℚ) - 1)) / singleDfDen n
    mse := rss / singleDfDen n
    residuals := residuals
    standardErrors := [0, 0]
    tValues := [0, 0]
    pValues := [0, 0]
    fStatistic := 0
    predictions := predictions }

/-- The multiple-regression path (DataInput.tsx lines 821-905): normal
equations guarded by the determinant tolerance check, Gauss-Jordan
inversion, degrees-of-freedom check, then fit statistics and
per-coefficient inference. -/
noncomputable def multipleFit (valid : List DataPoint) (dep : String)
    (indeps : List String) : Except RegError RegressionResult :=
  let n := valid.length
  let p := indeps.length + 1
  let X := designMatrix valid indeps
  let y := yVec valid dep
  let XtX := fitXtX valid indeps
  let Xty := fitXty valid dep indeps
  if |calculateDeterminant XtX| < tol then .error .degenerateDesign
  else
    match calculateMatrixInverse XtX with
    | none => .error .singularMatrix
    | some G =>
      let β := G.mulVec Xty
      let predictions := X.mulVec β
      let residuals := List.ofFn fun r => y r - predictions r
      let tss := totalSS valid dep
      let rss := (residuals.map fun e => e * e).sum
      let rSquared := 1 - rss / tss
      let df : ℤ := (n : ℤ) - (p : ℤ)
      if df ≤ 0 then .error .insufficientData
      else
        let mse := rss / (df : ℚ)
        .ok
          { coefficients := List.ofFn β
            rSquared := rSquared
            adjustedRSquared := 1 - ((1 - rSquared) * ((n : ℚ) - 1)) / (df : ℚ)
            mse := mse
            residuals := residuals
            standardErrors := List.ofFn fun i =>
              Real.sqrt ((mse * G i i : ℚ) : ℝ)
            tValues := List.ofFn fun i =>
              ((β i : ℚ) : ℝ) / Real.sqrt ((mse * G i i : ℚ) : ℝ)
            pValues := List.ofFn fun i =>
              calculatePValue (((β i : ℚ) : ℝ) /
                Real.sqrt ((mse * G i i : ℚ) : ℝ)) ((df : ℤ) : ℝ)
            fStatistic := (rSquared / ((p : ℚ) - 1)) / ((1 - rSquared) / (df : ℚ))
            predictions := List.ofFn predictions }

/-- Lines 779-905 of `runRegressionImmediate`: filter valid rows, require at
least two of them, then dispatch on the number of independent variables. -/
noncomputable def runFit (data : List DataPoint) (dep : String)
    (indeps : List String) : Except RegError RegressionResult :=
  let valid := validRows data dep indeps
  if valid.length < 2 then .error .notEnoughData
  else if indeps.length = 1 then .ok (singleVarFit valid dep indeps.headI)
  else multipleFit valid dep indeps

/-- The slice of the zustand store state touched by
`runRegressionImmediate` (UI-only fields omitted). -/
structure DataState : Type where
  parsedData : List DataPoint
  dependentVariable : String
  independentVariables : List String
  regressionResult : Option RegressionResult
  isLoading : Bool
  error : Option RegError

/-- `runRegressionImmediate` as a state transformer: the early
invalid-selection return only sets `error`; otherwise the fit either
commits a whole new `RegressionResult` or (on any thrown error) sets
`error` and leaves the stored result untouched. -/
noncomputable def runRegressionImmediate (s : DataState) : DataState :=
  if s.parsedData.isEmpty || s.dependentVariable == "" ||
      s.independentVariables.isEmpty then
    { s with error := some .invalidSelection }
  else
    match runFit s.parsedData s.dependentVariable s.independentVariables with
    | .ok r => { s with regressionResult := some r, isLoading := false,
                        error := none }
    | .error e => { s with error := some e, isLoading := false }

/-! ### Diagnostic suite (DiagnosticsPanel.tsx) -/

/-- Pass/warn classification of one assumption test. -/
inductive DiagStatus : Type
  | good : DiagStatus
  | warning : DiagStatus
deriving DecidableEq

/-- `performDurbinWatsonTest` (DiagnosticsPanel.tsx lines 1724-1749):
`DW = Σ_{i≥1} (eᵢ - eᵢ₋₁)² / Σ eᵢ²`. -/
def dwStatistic (residuals : List ℚ) : ℚ :=
  let numerator := ((residuals.zip residuals.tail).map
    fun pr => (pr.2 - pr.1) ^ 2).sum
  let denominator := (residuals.map fun e => e ^ 2).sum
  numerator / denominator

/-- `assessModelAssumptions` (DiagnosticsPanel.tsx line 1809): independence
`status = good` exactly when `1.5 ≤ DW ≤ 2.5`. -/
def independenceStatus (residuals : List ℚ) : DiagStatus :=
  if 3 / 2 ≤ dwStatistic residuals ∧ dwStatistic residuals ≤ 5 / 2 then
    .good
  else .warning

/-- The Gauss-Jordan loop inside `calculateVIF` (DiagnosticsPanel.tsx lines
1492-1527).  Unlike `calculateMatrixInverse` it does not abort on a tiny
pivot: the source's `continue` in the singular branch (line 1509) continues
the elimination loop itself, skipping only the scale-and-eliminate step for
that column (the transient `vifValues[targetVar] = 1` written there is
overwritten at line 1557 once the loop finishes). -/
def vifGJAux {n : ℕ} :
    ℕ → ℕ → Matrix (Fin n) (Fin n) ℚ → Matrix (Fin n) (Fin n) ℚ →
    Matrix (Fin n) (Fin n) ℚ × Matrix (Fin n) (Fin n) ℚ
  | 0, _, L, R => (L, R)
  | fuel + 1, i, L, R =>
    if h : i < n then
      let iF : Fin n := ⟨i, h⟩
      let p := findPivot L iF
      let L1 := if p = iF then L else rowSwap L iF p
      let R1 := if p = iF then R else rowSwap R iF p
      if |L1 iF iF| < tol then vifGJAux fuel (i + 1) L1 R1
      else
        let piv := L1 iF iF
        let L2 := scaleRow L1 iF piv
        let R2 := scaleRow R1 iF piv
        vifGJAux fuel (i + 1) (elimOther L2 (fun r => L2 r iF) iF)
          (elimOther R2 (fun r => L2 r iF) iF)
    else (L, R)

/-- The internal `rSquared` of one nested VIF regression (the local variable
of `calculateVIF`, initialised to `0` and left untouched on the
degenerate-input `continue` paths). -/
def vifNestedR2 (data : List DataPoint) (indeps : List String)
    (i : Fin indeps.length) : ℚ :=
  let target := indeps.get i
  let others := indeps.eraseIdx i
  let y := colVals data target
  let n := y.length
  let meanY := y.sum / (n : ℚ)
  let tss := (y.map fun v => (v - meanY) ^ 2).sum
  if tss = 0 then 0
  else if others.length = 1 then
    let xValues := colVals data others.headI
    let meanX := xValues.sum / (n : ℚ)
    let num := ((xValues.zip y).map fun pr =>
      (pr.1 - meanX) * (pr.2 - meanY)).sum
    let den := (xValues.map fun v => (v - meanX) ^ 2).sum
    if den = 0 then 0
    else
      let slope := num / den
      let intercept := meanY - slope * meanX
      let predictions := xValues.map fun v => intercept + slope * v
      let rss := ((y.zip predictions).map fun pr => (pr.1 - pr.2) ^ 2).sum
      1 - rss / tss
  else
    let Xm := designMatrix data others
    let XTX := Xmᵀ * Xm
    let XTy := Xmᵀ.mulVec fun r => getV (data.get r) target
    let invXTX := (vifGJAux (others.length + 1) 0 XTX 1).2
    let coefficients := invXTX.mulVec XTy
    let predictions := List.ofFn (Xm.mulVec coefficients)
    let rss := ((y.zip predictions).map fun pr => (pr.1 - pr.2) ^ 2).sum
    1 - rss / tss

/-- The VIF recorded for independent variable `i` by `calculateVIF`
(DiagnosticsPanel.tsx lines 1408-1561): `1` on the degenerate-input
`continue` paths (zero target variance, zero single-regressor denominator),
otherwise `max (1 / (1 - max R² 0.001)) 1`. -/
def vifFor (data : List DataPoint) (indeps : List String)
    (i : Fin indeps.length) : ℚ :=
  let target := indeps.get i
  let others := indeps.eraseIdx i
  let y := colVals data target
  let n := y.length
  let meanY := y.sum / (n : ℚ)
  let tss := (y.map fun v => (v - meanY) ^ 2).sum
  if tss = 0 then 1
  else if others.length = 1 then
    let xValues := colVals data others.headI
    let meanX := xValues.sum / (n : ℚ)
    let den := (xValues.map fun v => (v - meanX) ^ 2).sum
    if den = 0 then 1
    else max (1 / (1 - max (vifNestedR2 data indeps i) (1 / 1000))) 1
  else max (1 / (1 - max (vifNestedR2 data indeps i) (1 / 1000))) 1

/-- `calculateVIF` (DiagnosticsPanel.tsx): `null` for fewer than two
independent variables, otherwise the per-variable VIF mapping. -/
def calculateVIF (data : List DataPoint) (indeps : List String) :
    Option (List (String × ℚ)) :=
  if indeps.length < 2 then none
  else some (List.ofFn fun i : Fin indeps.length =>
    (indeps.get i, vifFor data indeps i))

/-! ### Generic evaluation helpers -/

/-- A sum over the positions of a list is the sum of the mapped list
(used to evaluate the estimator's `reduce` loops on concrete data). -/
lemma fin_sum_eq_list_sum {α : Type} (l : List α) (f : α → ℚ) :
    (∑ i : Fin l.length, f (l.get i)) = (l.map f).sum := by
  rw [← List.sum_ofFn]
  congr 1
  conv_rhs => rw [← List.ofFn_get l]
  rw [List.map_ofFn]
  rfl

lemma map_eq_ofFn {α : Type} (l : List α) (g : α → ℚ) :
    l.map g = List.ofFn fun i => g (l.get i) := by
  conv_lhs => rw [← List.ofFn_get l]
  rw [List.map_ofFn]
  rfl

lemma colVals_length (rows : List DataPoint) (c : String) :
    (colVals rows c).length = rows.length := List.length_map _ _

lemma colVals_sum (rows : List DataPoint) (c : String) :
    (colVals rows c).sum = ∑ i : Fin rows.length, getV (rows.get i) c :=
  (fin_sum_eq_list_sum rows _).symm

lemma colVals_sq_sum (rows : List DataPoint) (c : String) :
    ((colVals rows c).map fun v => v * v).sum =
      ∑ i : Fin rows.length, getV (rows.get i) c * getV (rows.get i) c := by
  rw [colVals, List.map_map, ← fin_sum_eq_list_sum]
  rfl

lemma colVals_zip_mul_sum (rows : List DataPoint) (c d : String) :
    (((colVals rows c).zip (colVals rows d)).map fun pr =>
      pr.1 * pr.2).sum =
    ∑ i : Fin rows.length, getV (rows.get i) c * getV (rows.get i) d := by
  rw [colVals, colVals, List.zip_map', List.map_map, ← fin_sum_eq_list_sum]
  rfl

/-- The squared-residual `reduce` of the single path as a positional sum. -/
lemma single_rss_sum (valid : List DataPoint) (dep xcol : String)
    (m b : ℚ) :
    ((((colVals valid dep).zip ((colVals valid xcol).map fun v =>
        m * v + b)).map fun pr => pr.1 - pr.2).map fun e => e * e).sum =
    ∑ i : Fin valid.length,
      (getV (valid.get i) dep - (m * getV (valid.get i) xcol + b)) *
        (getV (valid.get i) dep - (m * getV (valid.get i) xcol + b)) := by
  rw [colVals, colVals]
  simp only [List.map_map]
  rw [List.zip_map']
  simp only [List.map_map]
  rw [← fin_sum_eq_list_sum]
  rfl

/-- The squared-residual `reduce` of the matrix path as a positional sum. -/
lemma ofFn_sq_sum {n : ℕ} (g : Fin n → ℚ) :
    ((List.ofFn g).map fun e => e * e).sum = ∑ r, g r * g r := by
  rw [List.map_ofFn, List.sum_ofFn]
  rfl

lemma sum_zip_sub : ∀ as bs : List ℚ, as.length = bs.length →
    ((as.zip bs).map fun pr => pr.1 - pr.2).sum = as.sum - bs.sum
  | [], [], _ => by simp
  | [], _ :: _, h => by simp at h
  | _ :: _, [], h => by simp at h
  | a :: as, b :: bs, h => by
      simp only [List.zip_cons_cons, List.map_cons, List.sum_cons]
      rw [sum_zip_sub as bs (by simpa using h)]
      ring

lemma sum_map_linear (xs : List ℚ) (m b : ℚ) :
    (xs.map fun v => m * v + b).sum = m * xs.sum + (xs.length : ℚ) * b := by
  induction xs with
  | nil => simp
  | cons a t ih =>
    simp only [List.map_cons, List.sum_cons, List.length_cons, ih]
    push_cast
    ring

lemma headI_eq_sum_of_length_one (l : List ℚ) (h : l.length = 1) :
    l.headI = l.sum := by
  match l, h with
  | [a], _ => simp

/-! ### Correctness of the determinant elimination loop -/

lemma tol_pos : 0 < tol := by norm_num [tol]

/-- The pivot search never moves above the current row. -/
lemma le_findPivot {n : ℕ} (A : Matrix (Fin n) (Fin n) ℚ) (i : Fin n) :
    i ≤ findPivot A i := by
  have key : ∀ (l : List (Fin n)) (m : Fin n), i ≤ m → (∀ k ∈ l, i ≤ k) →
      i ≤ l.foldl (fun m k => if |A k i| > |A m i| then k else m) m := by
    intro l
    induction l with
    | nil => intro m hm _; exact hm
    | cons a t ih =>
      intro m hm hl
      simp only [List.foldl_cons]
      refine ih _ ?_ fun k hk => hl k (List.mem_cons_of_mem _ hk)
      by_cases hc : |A a i| > |A m i|
      · simpa [hc] using hl a (List.mem_cons_self _ _)
      · simpa [hc] using hm
  refine key _ i le_rfl fun k hk => ?_
  obtain ⟨j, hj, rfl⟩ := List.mem_iff_getElem.mp hk
  have h1 : ((List.finRange n).drop (i.val + 1)).length = n - (i.val + 1) := by
    simp
  rw [List.getElem_drop]
  have h2 : i.val + 1 + j < n := by omega
  simp only [List.getElem_finRange]
  exact le_of_lt (by simp [Fin.lt_def]; omega)

/-- Swapping two distinct rows negates the determinant. -/
lemma rowSwap_det {n : ℕ} (A : Matrix (Fin n) (Fin n) ℚ) {i p : Fin n}
    (h : i ≠ p) : (rowSwap A i p).det = -A.det := by
  have e : rowSwap A i p = A.submatrix (Equiv.swap i p) id := rfl
  rw [e, Matrix.det_permute, Equiv.Perm.sign_swap h]
  push_cast
  ring

/-- Entries of a swapped matrix outside the two swapped rows. -/
lemma rowSwap_apply_of_ne {n : ℕ} (A : Matrix (Fin n) (Fin n) ℚ)
    {i p r : Fin n} (hri : r ≠ i) (hrp : r ≠ p) (c : Fin n) :
    rowSwap A i p r c = A r c := by
  simp [rowSwap, Equiv.swap_apply_of_ne_of_ne hri hrp]

/-- The elementary matrix performing one `elimBelow` sweep. -/
def elimMat {n : ℕ} (A : Matrix (Fin n) (Fin n) ℚ) (i : Fin n) :
    Matrix (Fin n) (Fin n) ℚ :=
  fun r k => (if r = k then 1 else 0) +
    (if k = i ∧ i < r then -(A r i / A i i) else 0)

/-- When row `i` is zero left of the diagonal, the partial-column sweep of
`elimBelow` agrees with left multiplication by `elimMat`. -/
lemma elimBelow_eq_mul {n : ℕ} (A : Matrix (Fin n) (Fin n) ℚ) (i : Fin n)
    (hz : ∀ c : Fin n, c < i → A i c = 0) :
    elimBelow A i = elimMat A i * A := by
  ext r c
  rw [Matrix.mul_apply]
  have expand : ∀ k : Fin n,
      elimMat A i r k * A k c =
        (if r = k then A k c else 0) +
        (if k = i ∧ i < r then -(A r i / A i i) * A k c else 0) := by
    intro k
    simp only [elimMat, add_mul, ite_mul, one_mul, zero_mul]
  simp only [expand, Finset.sum_add_distrib]
  rw [Finset.sum_ite_eq Finset.univ r (fun k => A k c)]
  have second : (∑ k, if k = i ∧ i < r then -(A r i / A i i) * A k c else 0)
      = if i < r then -(A r i / A i i) * A i c else 0 := by
    simp only [ite_and]
    rw [Finset.sum_ite_eq' Finset.univ i
      (fun k => if i < r then -(A r i / A i i) * A k c else 0)]
    simp
  rw [second]
  simp only [Finset.mem_univ, if_true, elimBelow]
  by_cases hr : i < r
  · by_cases hc : i ≤ c
    · simp only [hr, hc, and_self, if_true, if_pos]
      ring
    · have hci : c < i := lt_of_not_le hc
      simp only [hr, hc, and_false, if_false, if_pos, hz c hci]
      ring
  · simp [hr]

/-- `elimMat` is unit lower triangular, so it has determinant one. -/
lemma elimMat_det {n : ℕ} (A : Matrix (Fin n) (Fin n) ℚ) (i : Fin n) :
    (elimMat A i).det = 1 := by
  have htri : (elimMat A i).BlockTriangular OrderDual.toDual := by
    intro r k hkr
    have hrk : r < k := hkr
    have h1 : ¬ r = k := ne_of_lt hrk
    have h2 : ¬ (k = i ∧ i < r) := by
      rintro ⟨rfl, hir⟩
      exact absurd (lt_trans hir hrk) (lt_irrefl _)
    simp [elimMat, h1, h2]
  rw [Matrix.det_of_lowerTriangular _ htri]
  have hdiag : ∀ r : Fin n, elimMat A i r r = 1 := by
    intro r
    have h2 : ¬ (r = i ∧ i < r) := by
      rintro ⟨rfl, hir⟩
      exact absurd hir (lt_irrefl _)
    simp [elimMat, h2]
  simp [hdiag]

/-- The elimination sweep preserves the determinant. -/
lemma elimBelow_det {n : ℕ} (A : Matrix (Fin n) (Fin n) ℚ) (i : Fin n)
    (hz : ∀ c : Fin n, c < i → A i c = 0) :
    (elimBelow A i).det = A.det := by
  rw [elimBelow_eq_mul A i hz, Matrix.det_mul, elimMat_det, one_mul]

/-- A matrix whose processed part covers every column is upper triangular,
so its determinant is the product of its diagonal. -/
lemma det_of_processed {n : ℕ} (A : Matrix (Fin n) (Fin n) ℚ) (i : ℕ)
    (hin : n ≤ i) (hU : ∀ r c : Fin n, c.val < i → c < r → A r c = 0) :
    A.det = ∏ j, A j j := by
  apply Matrix.det_of_upperTriangular
  intro r c hcr
  exact hU r c (lt_of_lt_of_le c.isLt hin) hcr

/-- Invariant of the elimination loop: at step `i`, on a matrix whose first
`i` columns are already reduced (zero below the diagonal, nonzero past
pivots on the diagonal), the loop either early-returns `0` or its result
times the already-fixed pivots is `acc` times the determinant. -/
lemma gaussDetAux_spec {n : ℕ} :
    ∀ (fuel i : ℕ) (A : Matrix (Fin n) (Fin n) ℚ) (acc : ℚ),
      n ≤ i + fuel →
      (∀ r c : Fin n, c.val < i → c < r → A r c = 0) →
      (∀ j : Fin n, j.val < i → A j j ≠ 0) →
      gaussDetAux fuel i A acc = 0 ∨
      gaussDetAux fuel i A acc *
          ∏ j ∈ Finset.univ.filter fun j : Fin n => j.val < i, A j j =
        acc * A.det := by
  intro fuel
  induction fuel with
  | zero =>
    intro i A acc hn hU hd
    right
    have hin : n ≤ i := by omega
    have hfilter :
        (Finset.univ.filter fun j : Fin n => j.val < i) = Finset.univ :=
      Finset.filter_true_of_mem fun j _ => lt_of_lt_of_le j.isLt hin
    rw [hfilter, det_of_processed A i hin hU]
    simp [gaussDetAux]
  | succ fuel ih =>
    intro i A acc hn hU hd
    by_cases h : i < n
    case neg =>
      right
      have hin : n ≤ i := by omega
      have hfilter :
          (Finset.univ.filter fun j : Fin n => j.val < i) = Finset.univ :=
        Finset.filter_true_of_mem fun j _ => lt_of_lt_of_le j.isLt hin
      rw [hfilter, det_of_processed A i hin hU]
      simp [gaussDetAux, h]
    case pos =>
    have hstep : gaussDetAux (fuel + 1) i A acc =
        (if |(if findPivot A ⟨i, h⟩ = ⟨i, h⟩ then A
              else rowSwap A ⟨i, h⟩ (findPivot A ⟨i, h⟩)) ⟨i, h⟩ ⟨i, h⟩| < tol
          then 0
          else gaussDetAux fuel (i + 1)
            (elimBelow (if findPivot A ⟨i, h⟩ = ⟨i, h⟩ then A
              else rowSwap A ⟨i, h⟩ (findPivot A ⟨i, h⟩)) ⟨i, h⟩)
            ((if findPivot A ⟨i, h⟩ = ⟨i, h⟩ then acc else -acc) *
              (if findPivot A ⟨i, h⟩ = ⟨i, h⟩ then A
                else rowSwap A ⟨i, h⟩ (findPivot A ⟨i, h⟩)) ⟨i, h⟩ ⟨i, h⟩)) := by
      simp only [gaussDetAux]
      rw [dif_pos h]
    set iF : Fin n := ⟨i, h⟩ with hiF
    set p : Fin n := findPivot A iF with hp
    have hip : iF ≤ p := le_findPivot A iF
    set A1 : Matrix (Fin n) (Fin n) ℚ :=
      if p = iF then A else rowSwap A iF p with hA1
    set acc1 : ℚ := if p = iF then acc else -acc with hacc1
    have hvlt : ∀ c : Fin n, c.val < i → c < iF := fun c hc => by
      simpa [Fin.lt_def, hiF] using hc
    have hU1 : ∀ r c : Fin n, c.val < i → c < r → A1 r c = 0 := by
      intro r c hc hcr
      by_cases hpi : p = iF
      · rw [hA1, if_pos hpi]; exact hU r c hc hcr
      · rw [hA1, if_neg hpi]
        by_cases hri : r = iF
        · rw [hri]
          have e1 : rowSwap A iF p iF c = A p c := by
            simp [rowSwap, Equiv.swap_apply_left]
          rw [e1]
          exact hU p c hc (lt_of_lt_of_le (hvlt c hc) hip)
        · by_cases hrp : r = p
          · rw [hrp]
            have e2 : rowSwap A iF p p c = A iF c := by
              simp [rowSwap, Equiv.swap_apply_right]
            rw [e2]
            exact hU iF c hc (hvlt c hc)
          · rw [rowSwap_apply_of_ne A hri hrp]
            exact hU r c hc hcr
    have hd1 : ∀ j : Fin n, j.val < i → A1 j j = A j j := by
      intro j hj
      by_cases hpi : p = iF
      · rw [hA1, if_pos hpi]
      · rw [hA1, if_neg hpi]
        have hji : j ≠ iF := ne_of_lt (hvlt j hj)
        have hjp : j ≠ p := ne_of_lt (lt_of_lt_of_le (hvlt j hj) hip)
        exact rowSwap_apply_of_ne A hji hjp j
    have hacc_det : acc1 * A1.det = acc * A.det := by
      by_cases hpi : p = iF
      · rw [hA1, hacc1, if_pos hpi, if_pos hpi]
      · rw [hA1, hacc1, if_neg hpi, if_neg hpi,
          rowSwap_det A fun hq => hpi hq.symm]
        ring
    by_cases htol : |A1 iF iF| < tol
    · left
      rw [hstep, if_pos htol]
    · have hpiv : A1 iF iF ≠ 0 := by
        intro h0
        rw [h0] at htol
        exact htol (by simpa using tol_pos)
      have hz : ∀ c : Fin n, c < iF → A1 iF c = 0 := by
        intro c hc
        exact hU1 iF c (by simpa [Fin.lt_def, hiF] using hc) hc
      have hU' : ∀ r c : Fin n, c.val < i + 1 → c < r →
          elimBelow A1 iF r c = 0 := by
        intro r c hc hcr
        by_cases hci : c.val < i
        · have hnc : ¬ (iF < r ∧ iF ≤ c) := by
            rintro ⟨-, hic⟩
            exact absurd (hvlt c hci) (not_lt_of_le hic)
          simp only [elimBelow, if_neg hnc]
          exact hU1 r c hci hcr
        · have hceq : c = iF := Fin.ext (by simp [hiF]; omega)
          rw [hceq] at hcr ⊢
          have hcond : iF < r ∧ iF ≤ iF := ⟨hcr, le_rfl⟩
          simp only [elimBelow, if_pos hcond]
          field_simp
      have hd' : ∀ j : Fin n, j.val < i + 1 → elimBelow A1 iF j j ≠ 0 := by
        intro j hj
        by_cases hji : j.val < i
        · have hnc : ¬ (iF < j ∧ iF ≤ j) := by
            rintro ⟨hij, -⟩
            exact absurd (hvlt j hji) (not_lt_of_le (le_of_lt hij))
          simp only [elimBelow, if_neg hnc]
          rw [hd1 j hji]
          exact hd j hji
        · have hjeq : j = iF := Fin.ext (by simp [hiF]; omega)
          rw [hjeq]
          have hnc : ¬ (iF < iF ∧ iF ≤ iF) := by
            rintro ⟨hij, -⟩
            exact absurd hij (lt_irrefl _)
          simp only [elimBelow, if_neg hnc]
          exact hpiv
      have hdet' : (elimBelow A1 iF).det = A1.det := elimBelow_det A1 iF hz
      rcases ih (i + 1) (elimBelow A1 iF) (acc1 * A1 iF iF)
          (by omega) hU' hd' with h0 | heq
      · left
        rw [hstep, if_neg htol, h0]
      · right
        rw [hstep, if_neg htol]
        have hsplit : (Finset.univ.filter fun j : Fin n => j.val < i + 1)
            = insert iF (Finset.univ.filter fun j : Fin n => j.val < i) := by
          ext j
          simp only [Finset.mem_filter, Finset.mem_insert, Finset.mem_univ,
            true_and]
          constructor
          · intro hj
            by_cases hji : j.val < i
            · exact Or.inr hji
            · exact Or.inl (Fin.ext (by simp [hiF]; omega))
          · rintro (rfl | hj)
            · simp [hiF]
            · omega
        have hinot : iF ∉ Finset.univ.filter fun j : Fin n => j.val < i := by
          simp [hiF]
        rw [hsplit, Finset.prod_insert hinot] at heq
        have hEii : elimBelow A1 iF iF iF = A1 iF iF := by
          have hnc : ¬ (iF < iF ∧ iF ≤ iF) := by
            rintro ⟨hlt, -⟩
            exact absurd hlt (lt_irrefl _)
          simp only [elimBelow, if_neg hnc]
        have hEjj : ∀ j ∈ Finset.univ.filter fun j : Fin n => j.val < i,
            elimBelow A1 iF j j = A j j := by
          intro j hj
          have hji : j.val < i := (Finset.mem_filter.mp hj).2
          have hnc : ¬ (iF < j ∧ iF ≤ j) := by
            rintro ⟨hij, -⟩
            exact absurd (hvlt j hji) (not_lt_of_le (le_of_lt hij))
          simp only [elimBelow, if_neg hnc]
          exact hd1 j hji
        rw [hEii, Finset.prod_congr rfl hEjj, hdet'] at heq
        apply mul_left_cancel₀ hpiv
        calc A1 iF iF *
            (gaussDetAux fuel (i + 1) (elimBelow A1 iF) (acc1 * A1 iF iF) *
              ∏ j ∈ Finset.univ.filter fun j : Fin n => j.val < i, A j j)
            = gaussDetAux fuel (i + 1) (elimBelow A1 iF) (acc1 * A1 iF iF) *
              (A1 iF iF *
                ∏ j ∈ Finset.univ.filter fun j : Fin n => j.val < i, A j j) := by
              ring
          _ = acc1 * A1 iF iF * A1.det := heq
          _ = A1 iF iF * (acc1 * A1.det) := by ring
          _ = A1 iF iF * (acc * A.det) := by rw [hacc_det]

/-- `calculateDeterminant` either computes the true determinant (the
closed-form sizes, and every elimination run that never meets a
sub-tolerance pivot) or returns exactly `0` (the early singular return). -/
lemma calculateDeterminant_spec {n : ℕ} (M : Matrix (Fin n) (Fin n) ℚ) :
    calculateDeterminant M = M.det ∨ calculateDeterminant M = 0 := by
  match n, M with
  | 0, M =>
    left
    rw [Matrix.det_isEmpty]
    rfl
  | 1, M =>
    left
    rw [Matrix.det_fin_one]
    rfl
  | 2, M =>
    left
    rw [Matrix.det_fin_two]
    rfl
  | 3, M =>
    left
    rw [Matrix.det_fin_three]
    show M 0 0 * (M 1 1 * M 2 2 - M 1 2 * M 2 1) -
        M 0 1 * (M 1 0 * M 2 2 - M 1 2 * M 2 0) +
        M 0 2 * (M 1 0 * M 2 1 - M 1 1 * M 2 0) = _
    ring
  | (k + 4), M =>
    have h := gaussDetAux_spec (n := k + 4) (k + 4) 0 M 1 (by omega)
      (fun r c hc _ => absurd hc (by omega))
      (fun j hj => absurd hj (by omega))
    rcases h with h0 | heq
    · exact Or.inr h0
    · left
      have hfilter :
          (Finset.univ.filter fun j : Fin (k + 4) => j.val < 0) = ∅ := by
        simp
      rw [hfilter, Finset.prod_empty, mul_one, one_mul] at heq
      exact heq

/-- A mathematically singular matrix is always reported singular: the
elimination necessarily meets a sub-tolerance pivot and returns `0`. -/
lemma calculateDeterminant_eq_zero {n : ℕ} (M : Matrix (Fin n) (Fin n) ℚ)
    (h : M.det = 0) : calculateDeterminant M = 0 := by
  rcases calculateDeterminant_spec M with h1 | h1
  · rw [h1, h]
  · exact h1

/-- A strictly wide design matrix (fewer rows than columns) always has a
singular `XᵗX`. -/
lemma det_transpose_mul_self_eq_zero {m p : ℕ} (X : Matrix (Fin m) (Fin p) ℚ)
    (h : m < p) : (Xᵀ * X).det = 0 := by
  rw [← Matrix.exists_mulVec_eq_zero_iff]
  have hni : ¬ Function.Injective X.mulVecLin := by
    intro hinj
    have hle := LinearMap.finrank_le_finrank_of_injective hinj
    rw [Module.finrank_pi, Module.finrank_pi] at hle
    simp only [Fintype.card_fin] at hle
    omega
  rw [← LinearMap.ker_eq_bot] at hni
  obtain ⟨v, hvmem, hv0⟩ := (Submodule.ne_bot_iff _).mp hni
  refine ⟨v, hv0, ?_⟩
  have hXv : X.mulVec v = 0 := by
    have := LinearMap.mem_ker.mp hvmem
    rwa [Matrix.mulVecLin_apply] at this
  rw [← Matrix.mulVec_mulVec, hXv, Matrix.mulVec_zero]

/-- On a strictly wide design, the multiple-regression path always stops at
the determinant check with the multicollinearity error: the
degrees-of-freedom check further down is unreachable. -/
lemma multipleFit_wide {valid : List DataPoint} {dep : String}
    {indeps : List String} (h : valid.length < indeps.length + 1) :
    multipleFit valid dep indeps = .error .degenerateDesign := by
  have hdet0 : calculateDeterminant (fitXtX valid indeps) = 0 :=
    calculateDeterminant_eq_zero _
      (det_transpose_mul_self_eq_zero (designMatrix valid indeps) h)
  unfold multipleFit
  dsimp only
  rw [hdet0, if_pos (by simpa using tol_pos)]

/-- `runFit` on a strictly wide design with at least two valid rows and at
least two independent variables fails with `degenerateDesign`. -/
lemma runFit_wide (data : List DataPoint) (dep : String)
    (indeps : List String) (h2 : 2 ≤ (validRows data dep indeps).length)
    (hlen : indeps.length ≠ 1)
    (hwide : (validRows data dep indeps).length < indeps.length + 1) :
    runFit data dep indeps = .error .degenerateDesign := by
  unfold runFit
  rw [if_neg (by omega), if_neg hlen]
  exact multipleFit_wide hwide

/-! ### Correctness of the Gauss-Jordan inversion loop -/

/-- Row swaps commute with right multiplication. -/
lemma rowSwap_mul {n : ℕ} (R M : Matrix (Fin n) (Fin n) ℚ) (i p : Fin n) :
    rowSwap R i p * M = rowSwap (R * M) i p := by
  ext r c
  simp [rowSwap, Matrix.mul_apply]

/-- Row scaling commutes with right multiplication. -/
lemma scaleRow_mul {n : ℕ} (A M : Matrix (Fin n) (Fin n) ℚ) (i : Fin n)
    (d : ℚ) : scaleRow A i d * M = scaleRow (A * M) i d := by
  ext r c
  by_cases hr : r = i
  · simp only [scaleRow, Matrix.mul_apply, if_pos hr]
    rw [Finset.sum_div]
    exact Finset.sum_congr rfl fun k _ => by ring
  · simp [scaleRow, Matrix.mul_apply, hr]

/-- Row elimination commutes with right multiplication. -/
lemma elimOther_mul {n : ℕ} (A M : Matrix (Fin n) (Fin n) ℚ)
    (f : Fin n → ℚ) (i : Fin n) :
    elimOther A f i * M = elimOther (A * M) f i := by
  ext r c
  by_cases hr : r = i
  · simp [elimOther, Matrix.mul_apply, hr]
  · simp only [elimOther, Matrix.mul_apply, if_neg hr]
    rw [Finset.mul_sum, ← Finset.sum_sub_distrib]
    exact Finset.sum_congr rfl fun k _ => by ring

/-- Invariant of the Gauss-Jordan loop: the right block stays a left
multiplier of `M` producing the left block, and the processed columns of
the left block are identity columns; a successful run therefore yields a
left inverse. -/
lemma gaussJordanAux_spec {n : ℕ} {M : Matrix (Fin n) (Fin n) ℚ} :
    ∀ (fuel i : ℕ) (L R : Matrix (Fin n) (Fin n) ℚ),
      n ≤ i + fuel →
      R * M = L →
      (∀ c : Fin n, c.val < i → ∀ r : Fin n, L r c = if r = c then 1 else 0) →
      ∀ out, gaussJordanAux fuel i L R = some out → out.2 * M = 1 := by
  intro fuel
  induction fuel with
  | zero =>
    intro i L R hn hRM hW out hout
    have hL : L = 1 := by
      ext r c
      rw [hW c (lt_of_lt_of_le c.isLt (by omega)) r, Matrix.one_apply]
    have : out = (L, R) := by simpa [gaussJordanAux] using hout.symm
    rw [this]
    rw [hRM, hL]
  | succ fuel ih =>
    intro i L R hn hRM hW out hout
    by_cases h : i < n
    case neg =>
      have hL : L = 1 := by
        ext r c
        rw [hW c (lt_of_lt_of_le c.isLt (by omega)) r, Matrix.one_apply]
      have : out = (L, R) := by simpa [gaussJordanAux, h] using hout.symm
      rw [this]
      rw [hRM, hL]
    case pos =>
    have hstep : gaussJordanAux (fuel + 1) i L R =
        (if |(if findPivot L ⟨i, h⟩ = ⟨i, h⟩ then L
              else rowSwap L ⟨i, h⟩ (findPivot L ⟨i, h⟩)) ⟨i, h⟩ ⟨i, h⟩| < tol
          then none
          else
            gaussJordanAux fuel (i + 1)
              (elimOther
                (scaleRow (if findPivot L ⟨i, h⟩ = ⟨i, h⟩ then L
                    else rowSwap L ⟨i, h⟩ (findPivot L ⟨i, h⟩)) ⟨i, h⟩
                  ((if findPivot L ⟨i, h⟩ = ⟨i, h⟩ then L
                    else rowSwap L ⟨i, h⟩ (findPivot L ⟨i, h⟩)) ⟨i, h⟩ ⟨i, h⟩))
                (fun r =>
                  scaleRow (if findPivot L ⟨i, h⟩ = ⟨i, h⟩ then L
                      else rowSwap L ⟨i, h⟩ (findPivot L ⟨i, h⟩)) ⟨i, h⟩
                    ((if findPivot L ⟨i, h⟩ = ⟨i, h⟩ then L
                      else rowSwap L ⟨i, h⟩ (findPivot L ⟨i, h⟩)) ⟨i, h⟩ ⟨i, h⟩)
                    r ⟨i, h⟩)
                ⟨i, h⟩)
              (elimOther
                (scaleRow (if findPivot L ⟨i, h⟩ = ⟨i, h⟩ then R
                    else rowSwap R ⟨i, h⟩ (findPivot L ⟨i, h⟩)) ⟨i, h⟩
                  ((if findPivot L ⟨i, h⟩ = ⟨i, h⟩ then L
                    else rowSwap L ⟨i, h⟩ (findPivot L ⟨i, h⟩)) ⟨i, h⟩ ⟨i, h⟩))
                (fun r =>
                  scaleRow (if findPivot L ⟨i, h⟩ = ⟨i, h⟩ then L
                      else rowSwap L ⟨i, h⟩ (findPivot L ⟨i, h⟩)) ⟨i, h⟩
                    ((if findPivot L ⟨i, h⟩ = ⟨i, h⟩ then L
                      else rowSwap L ⟨i, h⟩ (findPivot L ⟨i, h⟩)) ⟨i, h⟩ ⟨i, h⟩)
                    r ⟨i, h⟩)
                ⟨i, h⟩)) := by
      simp only [gaussJordanAux]
      rw [dif_pos h]
    set iF : Fin n := ⟨i, h⟩ with hiF
    set p : Fin n := findPivot L iF with hp
    have hip : iF ≤ p := le_findPivot L iF
    set L1 : Matrix (Fin n) (Fin n) ℚ :=
      if p = iF then L else rowSwap L iF p with hL1
    set R1 : Matrix (Fin n) (Fin n) ℚ :=
      if p = iF then R else rowSwap R iF p with hR1
    have hvlt : ∀ c : Fin n, c.val < i → c < iF := fun c hc => by
      simpa [Fin.lt_def, hiF] using hc
    have hRM1 : R1 * M = L1 := by
      by_cases hpi : p = iF
      · rw [hL1, hR1, if_pos hpi, if_pos hpi, hRM]
      · rw [hL1, hR1, if_neg hpi, if_neg hpi, rowSwap_mul, hRM]
    have hW1 : ∀ c : Fin n, c.val < i → ∀ r : Fin n,
        L1 r c = if r = c then 1 else 0 := by
      intro c hc r
      have hzc : ∀ s : Fin n, c < s → L s c = 0 := by
        intro s hs
        rw [hW c hc s, if_neg (ne_of_gt hs)]
      by_cases hpi : p = iF
      · rw [hL1, if_pos hpi]; exact hW c hc r
      · rw [hL1, if_neg hpi]
        by_cases hri : r = iF
        · rw [hri]
          have e1 : rowSwap L iF p iF c = L p c := by
            simp [rowSwap, Equiv.swap_apply_left]
          rw [e1, hzc p (lt_of_lt_of_le (hvlt c hc) hip),
            if_neg (ne_of_gt (hvlt c hc))]
        · by_cases hrp : r = p
          · rw [hrp]
            have e2 : rowSwap L iF p p c = L iF c := by
              simp [rowSwap, Equiv.swap_apply_right]
            rw [e2, hzc iF (hvlt c hc)]
            have : p ≠ c :=
              ne_of_gt (lt_of_lt_of_le (hvlt c hc) hip)
            rw [if_neg this]
          · rw [rowSwap_apply_of_ne L hri hrp]
            exact hW c hc r
    by_cases htol : |L1 iF iF| < tol
    · rw [hstep, if_pos htol] at hout
      exact absurd hout (by simp)
    · rw [hstep, if_neg htol] at hout
      have hpiv : L1 iF iF ≠ 0 := by
        intro h0
        rw [h0] at htol
        exact htol (by simpa using tol_pos)
      set piv : ℚ := L1 iF iF with hpivdef
      set L2 : Matrix (Fin n) (Fin n) ℚ := scaleRow L1 iF piv with hL2
      set R2 : Matrix (Fin n) (Fin n) ℚ := scaleRow R1 iF piv with hR2
      have hRM2 : R2 * M = L2 := by
        rw [hR2, scaleRow_mul, hRM1, hL2]
      have hW2 : ∀ c : Fin n, c.val < i → ∀ r : Fin n,
          L2 r c = if r = c then 1 else 0 := by
        intro c hc r
        by_cases hri : r = iF
        · rw [hL2]
          simp only [scaleRow, if_pos hri]
          rw [hri, hW1 c hc iF, if_neg (ne_of_gt (hvlt c hc))]
          simp
        · rw [hL2]
          simp only [scaleRow, if_neg hri]
          exact hW1 c hc r
      have hL2ii : L2 iF iF = 1 := by
        rw [hL2]
        simp only [scaleRow, if_pos rfl]
        exact div_self hpiv
      have hRM3 : elimOther R2 (fun r => L2 r iF) iF * M =
          elimOther L2 (fun r => L2 r iF) iF := by
        rw [elimOther_mul, hRM2]
      have hW3 : ∀ c : Fin n, c.val < i + 1 → ∀ r : Fin n,
          elimOther L2 (fun r => L2 r iF) iF r c =
            if r = c then 1 else 0 := by
        intro c hc r
        by_cases hci : c.val < i
        · have hL2ic : L2 iF c = 0 := by
            rw [hW2 c hci iF, if_neg (ne_of_gt (hvlt c hci))]
          by_cases hri : r = iF
          · simp only [elimOther, if_pos hri]
            rw [hri, hL2ic, if_neg (ne_of_gt (hvlt c hci))]
          · simp only [elimOther, if_neg hri]
            rw [hL2ic, hW2 c hci r]
            ring
        · have hceq : c = iF := Fin.ext (by simp [hiF]; omega)
          by_cases hri : r = iF
          · simp only [elimOther, if_pos hri]
            rw [hri, hceq, hL2ii, if_pos rfl]
          · simp only [elimOther, if_neg hri]
            rw [hceq, hL2ii]
            rw [if_neg (by rw [← hceq] at hri ⊢; exact hri)]
            ring
      exact ih (i + 1) _ _ (by omega) hRM3 hW3 out hout

/-- A successful `calculateMatrixInverse` returns a genuine (two-sided,
by commutativity) inverse of its input. -/
lemma calculateMatrixInverse_mul {n : ℕ} {M G : Matrix (Fin n) (Fin n) ℚ}
    (h : calculateMatrixInverse M = some G) : G * M = 1 := by
  unfold calculateMatrixInverse at h
  obtain ⟨out, hout, hsnd⟩ := Option.map_eq_some'.mp h
  have := gaussJordanAux_spec n 0 M 1 (by omega) (Matrix.one_mul M)
    (fun c hc _ => absurd hc (by omega)) out hout
  rwa [hsnd] at this

/-- On a 2×2 matrix where no row swap happens and both pivots clear the
tolerance, Gauss-Jordan succeeds. -/
lemma gaussJordan_two_isSome (M : Matrix (Fin 2) (Fin 2) ℚ)
    (h1 : ¬ |M 1 0| > |M 0 0|)
    (h2 : ¬ |M 0 0| < tol)
    (h3 : ¬ |M 1 1 - M 1 0 * (M 0 1 / M 0 0)| < tol) :
    ∃ G, calculateMatrixInverse M = some G := by
  unfold calculateMatrixInverse
  suffices hs : (gaussJordanAux 2 0 M 1).isSome by
    obtain ⟨out, hout⟩ := Option.isSome_iff_exists.mp hs
    exact ⟨out.2, by rw [hout]; rfl⟩
  have hlt0 : (0 : ℕ) < 2 := by norm_num
  have hlt1 : (0 + 1 : ℕ) < 2 := by norm_num
  have hz : (⟨0, hlt0⟩ : Fin 2) = 0 := rfl
  have ho : (⟨0 + 1, hlt1⟩ : Fin 2) = 1 := rfl
  have hp0 : findPivot M ⟨0, hlt0⟩ = ⟨0, hlt0⟩ := by
    show (if |M 1 ⟨0, hlt0⟩| > |M 0 ⟨0, hlt0⟩| then (1 : Fin 2) else ⟨0, hlt0⟩)
        = ⟨0, hlt0⟩
    rw [if_neg]
    exact h1
  have h2' : ¬ |M ⟨0, hlt0⟩ ⟨0, hlt0⟩| < tol := h2
  simp only [gaussJordanAux]
  rw [dif_pos hlt0, hp0, if_pos rfl, if_pos rfl, if_neg h2', dif_pos hlt1]
  have hp1 : findPivot
      (elimOther (scaleRow M ⟨0, hlt0⟩ (M ⟨0, hlt0⟩ ⟨0, hlt0⟩))
        (fun r => scaleRow M ⟨0, hlt0⟩ (M ⟨0, hlt0⟩ ⟨0, hlt0⟩) r ⟨0, hlt0⟩)
        ⟨0, hlt0⟩) ⟨0 + 1, hlt1⟩ = ⟨0 + 1, hlt1⟩ := rfl
  rw [hp1, if_pos rfl, if_pos rfl]
  have hne : (⟨0 + 1, hlt1⟩ : Fin 2) ≠ ⟨0, hlt0⟩ := by
    rw [ho, hz]
    decide
  have hL311 : elimOther (scaleRow M ⟨0, hlt0⟩ (M ⟨0, hlt0⟩ ⟨0, hlt0⟩))
      (fun r => scaleRow M ⟨0, hlt0⟩ (M ⟨0, hlt0⟩ ⟨0, hlt0⟩) r ⟨0, hlt0⟩)
      ⟨0, hlt0⟩ ⟨0 + 1, hlt1⟩ ⟨0 + 1, hlt1⟩ =
      M 1 1 - M 1 0 * (M 0 1 / M 0 0) := by
    simp only [elimOther, scaleRow, if_neg hne, hz, ho]
    norm_num
  rw [hL311, if_neg h3]
  rfl

/-! ### Residuals sum to zero (normal equations) -/

/-- The intercept column of the design matrix is constant one. -/
lemma designMatrix_zero (valid : List DataPoint) (indeps : List String)
    (r : Fin valid.length) : designMatrix valid indeps r 0 = 1 := rfl

/-- Whenever the Gauss-Jordan output is a true inverse, the fitted
coefficients satisfy the normal equations, so the residuals are orthogonal
to the intercept column: they sum to zero. -/
lemma design_residual_sum {valid : List DataPoint} {dep : String}
    {indeps : List String}
    {G : Matrix (Fin (indeps.length + 1)) (Fin (indeps.length + 1)) ℚ}
    (hG : G * fitXtX valid indeps = 1) :
    ∑ r0 : Fin valid.length,
      (yVec valid dep r0 - (designMatrix valid indeps).mulVec
        (G.mulVec (fitXty valid dep indeps)) r0) = 0 := by
  set X := designMatrix valid indeps with hX
  set y := yVec valid dep with hy
  set β := G.mulVec (fitXty valid dep indeps) with hβ
  have hXtXβ : (fitXtX valid indeps).mulVec β = fitXty valid dep indeps := by
    rw [hβ, Matrix.mulVec_mulVec, Matrix.mul_eq_one_comm.mp hG,
      Matrix.one_mulVec]
  have hsub : (fun r0 => y r0 - X.mulVec β r0) = y - X.mulVec β := rfl
  have hcomp : (Xᵀ).mulVec (y - X.mulVec β) 0 = 0 := by
    have e : (Xᵀ).mulVec (y - X.mulVec β) =
        fitXty valid dep indeps - (fitXtX valid indeps).mulVec β := by
      rw [Matrix.mulVec_sub, Matrix.mulVec_mulVec]
      rfl
    rw [e, hXtXβ, sub_self]
    rfl
  have hexp : (Xᵀ).mulVec (y - X.mulVec β) 0 =
      ∑ r0 : Fin valid.length, X r0 0 * (y r0 - X.mulVec β r0) := by
    simp [Matrix.mulVec, Matrix.dotProduct, Matrix.transpose_apply]
  rw [hexp] at hcomp
  calc ∑ r0 : Fin valid.length, (y r0 - X.mulVec β r0)
      = ∑ r0 : Fin valid.length, X r0 0 * (y r0 - X.mulVec β r0) := by
        refine Finset.sum_congr rfl fun r0 _ => ?_
        rw [hX, designMatrix_zero, one_mul]
    _ = 0 := hcomp

/-- The single-regressor closed-form fit also has residuals summing to
zero (the slope/intercept formulas are the 2-parameter normal-equation
solution). -/
lemma singleVarFit_residual_sum (valid : List DataPoint) (dep xcol : String) :
    (singleVarFit valid dep xcol).residuals.sum = 0 := by
  unfold singleVarFit
  dsimp only
  rw [sum_zip_sub _ _ (by rw [List.length_map, colVals_length, colVals_length]),
    sum_map_linear]
  simp only [colVals_length]
  by_cases h1 : valid.length = 1
  · rw [if_pos h1, if_pos h1,
      headI_eq_sum_of_length_one _ (by rw [colVals_length]; exact h1), h1]
    ring
  · rw [if_neg h1, if_neg h1]
    by_cases h0 : valid.length = 0
    · have hy : colVals valid dep = [] := by
        rw [← List.length_eq_zero, colVals_length]
        exact h0
      have hx : colVals valid xcol = [] := by
        rw [← List.length_eq_zero, colVals_length]
        exact h0
      rw [hy, hx, h0]
      simp
    · have hn : (valid.length : ℚ) ≠ 0 := Nat.cast_ne_zero.mpr h0
      have key : ∀ Y S m nq : ℚ, nq ≠ 0 →
          Y - (m * S + nq * (Y / nq - m * S / nq)) = 0 := by
        intro Y S m nq hnq
        field_simp
      exact key _ _ _ _ hn

/-- Every successful fit of `runFit` has residuals summing to zero. -/
lemma runFit_residual_sum {data : List DataPoint} {dep : String}
    {indeps : List String} {r : RegressionResult}
    (h : runFit data dep indeps = .ok r) : r.residuals.sum = 0 := by
  unfold runFit at h
  dsimp only at h
  by_cases hlt : (validRows data dep indeps).length < 2
  · rw [if_pos hlt] at h
    exact absurd h (by simp)
  · rw [if_neg hlt] at h
    by_cases hone : indeps.length = 1
    · rw [if_pos hone] at h
      have hr : r = singleVarFit (validRows data dep indeps) dep
          indeps.headI := by
        injection h with h'
        exact h'.symm
      rw [hr]
      exact singleVarFit_residual_sum _ _ _
    · rw [if_neg hone] at h
      -- multiple-regression path
      unfold multipleFit at h
      dsimp only at h
      by_cases hdet : |calculateDeterminant
          (fitXtX (validRows data dep indeps) indeps)| < tol
      · rw [if_pos hdet] at h
        exact absurd h (by simp)
      · rw [if_neg hdet] at h
        cases hG : calculateMatrixInverse
            (fitXtX (validRows data dep indeps) indeps) with
        | none =>
          rw [hG] at h
          exact absurd h (by simp)
        | some G =>
          rw [hG] at h
          dsimp only at h
          by_cases hdf : ((validRows data dep indeps).length : ℤ) -
              ((indeps.length + 1 : ℕ) : ℤ) ≤ 0
          · rw [if_pos hdf] at h
            exact absurd h (by simp)
          · rw [if_neg hdf] at h
            injection h with h'
            rw [← h']
            dsimp only
            rw [List.sum_ofFn]
            exact design_residual_sum (calculateMatrixInverse_mul hG)


/-! ### The single-regressor path against the matrix path -/

lemma designMatrix_single_0 (valid : List DataPoint) (x : String)
    (r : Fin valid.length) :
    designMatrix valid [x] r (0 : Fin 2) = 1 := rfl

lemma designMatrix_single_1 (valid : List DataPoint) (x : String)
    (r : Fin valid.length) :
    designMatrix valid [x] r (1 : Fin 2) = getV (valid.get r) x := rfl

lemma fitXtX_single_apply (valid : List DataPoint) (x : String)
    (a b : Fin 2) :
    fitXtX valid [x] a b = ∑ i : Fin valid.length,
      designMatrix valid [x] i a * designMatrix valid [x] i b := by
  show ((designMatrix valid [x])ᵀ * designMatrix valid [x]) a b = _
  rw [Matrix.mul_apply]
  simp [Matrix.transpose_apply]

lemma fitXtX_single_00 (valid : List DataPoint) (x : String) :
    fitXtX valid [x] (0 : Fin 2) (0 : Fin 2) = (valid.length : ℚ) := by
  rw [fitXtX_single_apply]
  have e : ∀ i : Fin valid.length,
      designMatrix valid [x] i (0 : Fin 2) *
        designMatrix valid [x] i (0 : Fin 2) = 1 := by
    intro i
    rw [designMatrix_single_0]
    ring
  rw [Finset.sum_congr rfl fun i _ => e i]
  simp

lemma fitXtX_single_01 (valid : List DataPoint) (x : String) :
    fitXtX valid [x] (0 : Fin 2) (1 : Fin 2) = (colVals valid x).sum := by
  rw [fitXtX_single_apply, colVals_sum]
  refine Finset.sum_congr rfl fun i _ => ?_
  rw [designMatrix_single_0, designMatrix_single_1, one_mul]

lemma fitXtX_single_10 (valid : List DataPoint) (x : String) :
    fitXtX valid [x] (1 : Fin 2) (0 : Fin 2) = (colVals valid x).sum := by
  rw [fitXtX_single_apply, colVals_sum]
  refine Finset.sum_congr rfl fun i _ => ?_
  rw [designMatrix_single_0, designMatrix_single_1, mul_one]

lemma fitXtX_single_11 (valid : List DataPoint) (x : String) :
    fitXtX valid [x] (1 : Fin 2) (1 : Fin 2) =
      ((colVals valid x).map fun v => v * v).sum := by
  rw [fitXtX_single_apply, colVals_sq_sum]
  refine Finset.sum_congr rfl fun i _ => ?_
  rw [designMatrix_single_1]

lemma fitXty_single_0 (valid : List DataPoint) (dep x : String) :
    fitXty valid dep [x] (0 : Fin 2) = (colVals valid dep).sum := by
  rw [colVals_sum]
  show ∑ i : Fin valid.length,
      (designMatrix valid [x])ᵀ (0 : Fin 2) i * yVec valid dep i = _
  refine Finset.sum_congr rfl fun i _ => ?_
  rw [Matrix.transpose_apply, designMatrix_single_0, one_mul]
  rfl

lemma fitXty_single_1 (valid : List DataPoint) (dep x : String) :
    fitXty valid dep [x] (1 : Fin 2) =
      (((colVals valid x).zip (colVals valid dep)).map fun pr =>
        pr.1 * pr.2).sum := by
  rw [colVals_zip_mul_sum]
  show ∑ i : Fin valid.length,
      (designMatrix valid [x])ᵀ (1 : Fin 2) i * yVec valid dep i = _
  refine Finset.sum_congr rfl fun i _ => ?_
  rw [Matrix.transpose_apply, designMatrix_single_1]
  rfl

/-- The mapped single-path predictions as a positional `List.ofFn`. -/
lemma colVals_map_eq_ofFn (valid : List DataPoint) (c : String)
    (g : ℚ → ℚ) :
    (colVals valid c).map g =
      List.ofFn fun i : Fin valid.length => g (getV (valid.get i) c) := by
  rw [colVals, List.map_map]
  exact map_eq_ofFn valid _

/-- The single-path residual list as a positional `List.ofFn`. -/
lemma single_residuals_eq_ofFn (valid : List DataPoint) (dep xcol : String)
    (m b : ℚ) :
    (((colVals valid dep).zip ((colVals valid xcol).map fun v =>
        m * v + b)).map fun pr => pr.1 - pr.2) =
    List.ofFn fun i : Fin valid.length =>
      getV (valid.get i) dep - (m * getV (valid.get i) xcol + b) := by
  rw [colVals, colVals]
  simp only [List.map_map]
  rw [List.zip_map']
  simp only [List.map_map]
  exact map_eq_ofFn valid _

/-- Whenever the matrix path succeeds on a single-regressor selection, the
closed-form slope/intercept path computes exactly the same coefficients,
predictions, residuals, R², adjusted R² and MSE. -/
lemma single_eq_multiple {data : List DataPoint} {dep x : String}
    {r2 : RegressionResult}
    (h : multipleFit (validRows data dep [x]) dep [x] = .ok r2) :
    (singleVarFit (validRows data dep [x]) dep x).coefficients =
        r2.coefficients ∧
    (singleVarFit (validRows data dep [x]) dep x).predictions =
        r2.predictions ∧
    (singleVarFit (validRows data dep [x]) dep x).residuals =
        r2.residuals ∧
    (singleVarFit (validRows data dep [x]) dep x).rSquared = r2.rSquared ∧
    (singleVarFit (validRows data dep [x]) dep x).adjustedRSquared =
        r2.adjustedRSquared ∧
    (singleVarFit (validRows data dep [x]) dep x).mse = r2.mse := by
  set valid := validRows data dep [x] with hvalid
  unfold multipleFit at h
  dsimp only at h
  by_cases hdet : |calculateDeterminant (fitXtX valid [x])| < tol
  · rw [if_pos hdet] at h
    exact absurd h (by simp)
  · rw [if_neg hdet] at h
    cases hG : calculateMatrixInverse (fitXtX valid [x]) with
    | none =>
      rw [hG] at h
      exact absurd h (by simp)
    | some G =>
      rw [hG] at h
      dsimp only at h
      by_cases hdf : ((valid.length : ℤ) - (([x].length + 1 : ℕ) : ℤ)) ≤ 0
      · rw [if_pos hdf] at h
        exact absurd h (by simp)
      · rw [if_neg hdf] at h
        injection h with h'
        have hn3 : 3 ≤ valid.length := by
          simp only [List.length_cons, List.length_nil] at hdf
          omega
        have hnq : (valid.length : ℚ) ≠ 0 := Nat.cast_ne_zero.mpr (by omega)
        have hn1 : ¬ valid.length = 1 := by omega
        have hcalc : calculateDeterminant (fitXtX valid [x]) =
            fitXtX valid [x] (0 : Fin 2) (0 : Fin 2) *
              fitXtX valid [x] (1 : Fin 2) (1 : Fin 2) -
            fitXtX valid [x] (0 : Fin 2) (1 : Fin 2) *
              fitXtX valid [x] (1 : Fin 2) (0 : Fin 2) := rfl
        have hdet2 : (valid.length : ℚ) *
              ((colVals valid x).map fun v => v * v).sum -
            (colVals valid x).sum * (colVals valid x).sum ≠ 0 := by
          intro h0
          apply hdet
          rw [hcalc, fitXtX_single_00, fitXtX_single_01, fitXtX_single_10,
            fitXtX_single_11, h0]
          simpa using tol_pos
        set b : Fin ([x].length + 1) -> Rat :=
          G.mulVec (fitXty valid dep [x]) with hb
        have hbeq : (fitXtX valid [x]).mulVec b = fitXty valid dep [x] := by
          rw [hb, Matrix.mulVec_mulVec,
            Matrix.mul_eq_one_comm.mp (calculateMatrixInverse_mul hG),
            Matrix.one_mulVec]
        have expand : forall a : Fin 2,
            (fitXtX valid [x]).mulVec b a =
              fitXtX valid [x] a (0 : Fin 2) * b (0 : Fin 2) +
                fitXtX valid [x] a (1 : Fin 2) * b (1 : Fin 2) := by
          intro a
          show (∑ j : Fin 2, fitXtX valid [x] a j * b j) = _
          rw [Fin.sum_univ_two]
        have eq0 : (valid.length : ℚ) * b (0 : Fin 2) +
            (colVals valid x).sum * b (1 : Fin 2) =
            (colVals valid dep).sum := by
          have h00 := congrFun hbeq (0 : Fin 2)
          rw [expand (0 : Fin 2), fitXtX_single_00, fitXtX_single_01,
            fitXty_single_0] at h00
          exact h00
        have eq1 : (colVals valid x).sum * b (0 : Fin 2) +
            (((colVals valid x).map fun v => v * v).sum) * b (1 : Fin 2) =
            (((colVals valid x).zip (colVals valid dep)).map fun pr =>
              pr.1 * pr.2).sum := by
          have h11 := congrFun hbeq (1 : Fin 2)
          rw [expand (1 : Fin 2), fitXtX_single_10, fitXtX_single_11,
            fitXty_single_1] at h11
          exact h11
        have hb1 : b (1 : Fin 2) = (((valid.length : ℚ) *
                (((colVals valid x).zip (colVals valid dep)).map fun pr =>
                  pr.1 * pr.2).sum -
              (colVals valid x).sum * (colVals valid dep).sum) /
            ((valid.length : ℚ) *
                ((colVals valid x).map fun v => v * v).sum -
              (colVals valid x).sum * (colVals valid x).sum)) := by
          rw [eq_div_iff hdet2]
          linear_combination (valid.length : ℚ) * eq1 -
            (colVals valid x).sum * eq0
        have hb0 : b (0 : Fin 2) = ((colVals valid dep).sum / (valid.length : ℚ) -
            (((valid.length : ℚ) *
                (((colVals valid x).zip (colVals valid dep)).map fun pr =>
                  pr.1 * pr.2).sum -
              (colVals valid x).sum * (colVals valid dep).sum) /
            ((valid.length : ℚ) *
                ((colVals valid x).map fun v => v * v).sum -
              (colVals valid x).sum * (colVals valid x).sum)) *
              (colVals valid x).sum / (valid.length : ℚ)) := by
          rw [<- hb1]
          field_simp
          linear_combination eq0
        have hXmul : forall i : Fin valid.length,
            (designMatrix valid [x]).mulVec b i =
              b (0 : Fin 2) + getV (valid.get i) x * b (1 : Fin 2) := by
          intro i
          show (∑ j : Fin 2, designMatrix valid [x] i j * b j) = _
          rw [Fin.sum_univ_two, designMatrix_single_0, designMatrix_single_1,
            one_mul]
        have hofn : List.ofFn b = [b (0 : Fin 2), b (1 : Fin 2)] := rfl
        have hden : ((((valid.length : ℤ) -
              (([x].length + 1 : ℕ) : ℤ) : ℤ)) : ℚ) =
            singleDfDen valid.length := by
          simp only [singleDfDen, List.length_cons, List.length_nil]
          push_cast
          ring
        have e : ∀ i0 : Fin valid.length,
            (yVec valid dep i0 - (designMatrix valid [x]).mulVec b i0) *
              (yVec valid dep i0 - (designMatrix valid [x]).mulVec b i0) =
            (getV (valid.get i0) dep -
                ((((valid.length : ℚ) *
                (((colVals valid x).zip (colVals valid dep)).map fun pr =>
                  pr.1 * pr.2).sum -
              (colVals valid x).sum * (colVals valid dep).sum) /
            ((valid.length : ℚ) *
                ((colVals valid x).map fun v => v * v).sum -
              (colVals valid x).sum * (colVals valid x).sum)) * getV (valid.get i0) x + ((colVals valid dep).sum / (valid.length : ℚ) -
            (((valid.length : ℚ) *
                (((colVals valid x).zip (colVals valid dep)).map fun pr =>
                  pr.1 * pr.2).sum -
              (colVals valid x).sum * (colVals valid dep).sum) /
            ((valid.length : ℚ) *
                ((colVals valid x).map fun v => v * v).sum -
              (colVals valid x).sum * (colVals valid x).sum)) *
              (colVals valid x).sum / (valid.length : ℚ)))) *
              (getV (valid.get i0) dep -
                ((((valid.length : ℚ) *
                (((colVals valid x).zip (colVals valid dep)).map fun pr =>
                  pr.1 * pr.2).sum -
              (colVals valid x).sum * (colVals valid dep).sum) /
            ((valid.length : ℚ) *
                ((colVals valid x).map fun v => v * v).sum -
              (colVals valid x).sum * (colVals valid x).sum)) * getV (valid.get i0) x + ((colVals valid dep).sum / (valid.length : ℚ) -
            (((valid.length : ℚ) *
                (((colVals valid x).zip (colVals valid dep)).map fun pr =>
                  pr.1 * pr.2).sum -
              (colVals valid x).sum * (colVals valid dep).sum) /
            ((valid.length : ℚ) *
                ((colVals valid x).map fun v => v * v).sum -
              (colVals valid x).sum * (colVals valid x).sum)) *
              (colVals valid x).sum / (valid.length : ℚ)))) := by
          intro i0
          rw [hXmul i0, hb0, hb1]
          simp only [yVec]
          ring
        unfold singleVarFit
        dsimp only
        simp only [colVals_length]
        simp only [if_neg hn1]
        rw [<- h']
        dsimp only
        refine ⟨?_, ?_, ?_, ?_, ?_, ?_⟩
        · rw [hofn, hb0, hb1]
        · rw [colVals_map_eq_ofFn]
          refine congrArg List.ofFn (funext fun i => ?_)
          rw [hXmul i, hb0, hb1]
          ring
        · rw [single_residuals_eq_ofFn]
          refine congrArg List.ofFn (funext fun i => ?_)
          rw [hXmul i, hb0, hb1]
          simp only [yVec]
          ring
        · rw [single_rss_sum, ofFn_sq_sum,
            Finset.sum_congr rfl fun i0 _ => e i0]
        · rw [single_rss_sum, ofFn_sq_sum,
            Finset.sum_congr rfl fun i0 _ => e i0, hden]
        · rw [single_rss_sum, ofFn_sq_sum,
            Finset.sum_congr rfl fun i0 _ => e i0, hden]

/-! ### Concrete datasets for the scenario claims -/

/-- A two-column row (`x`, `y`). -/
def row2 (x y : ℚ) : DataPoint := fun c =>
  if c = "x" then some x else if c = "y" then some y else none

/-- A four-column row (`a`, `b`, `c`, `y`). -/
def row4 (a b c y : ℚ) : DataPoint := fun s =>
  if s = "a" then some a else if s = "b" then some b
  else if s = "c" then some c else if s = "y" then some y else none

/-- A two-regressor row (`x1`, `x2`). -/
def rowI (x1 x2 : ℚ) : DataPoint := fun c =>
  if c = "x1" then some x1 else if c = "x2" then some x2 else none

/-- Three rows, three independent variables: `p = 4 > n = 3`. -/
def d1 : List DataPoint := [row4 1 2 3 1, row4 4 5 6 2, row4 7 8 9 3]

/-- Three rows with a constant dependent column (`SS_tot = 0`). -/
def d2 : List DataPoint := [row2 1 5, row2 2 5, row2 3 5]

/-- Three rows, one regressor, a non-degenerate fit. -/
def d3 : List DataPoint := [row2 0 1, row2 1 1, row2 2 2]

/-- Four rows over two uncorrelated regressors (`R²_nested = 0`). -/
def d8 : List DataPoint := [rowI 1 1, rowI 2 1, rowI 1 2, rowI 2 2]

/-- Exactly two valid rows, one regressor: `df = n - 2 = 0`. -/
def d10 : List DataPoint := [row2 0 1, row2 1 3]

lemma d1_valid : validRows d1 "y" ["a", "b", "c"] = d1 := rfl

lemma d2_valid : validRows d2 "y" ["x"] = d2 := rfl

lemma d3_valid : validRows d3 "y" ["x"] = d3 := rfl

lemma d10_valid : validRows d10 "y" ["x"] = d10 := rfl

lemma d2_y : colVals (validRows d2 "y" ["x"]) "y" = [5, 5, 5] := rfl

lemma d3_x : colVals (validRows d3 "y" ["x"]) "x" = [0, 1, 2] := rfl

lemma d3_y : colVals (validRows d3 "y" ["x"]) "y" = [1, 1, 2] := rfl

lemma d8_x1 : colVals d8 "x1" = [1, 2, 1, 2] := rfl

lemma d8_x2 : colVals d8 "x2" = [1, 1, 2, 2] := rfl

/-- The constant response of `d2` has zero total sum of squares. -/
lemma d2_tss : totalSS (validRows d2 "y" ["x"]) "y" = 0 := by
  unfold totalSS
  rw [d2_y]
  norm_num

lemma d3_x2 : colVals d3 "x" = [0, 1, 2] := rfl

lemma d3_y2 : colVals d3 "y" = [1, 1, 2] := rfl

lemma d3_len : d3.length = 3 := rfl

/-- The inverse of the `d3` normal matrix, as a concrete matrix. -/
def H3d : Matrix (Fin 2) (Fin 2) ℚ := !![5/6, -(1/2); -(1/2), 1/2]

lemma d3_XtX : (!![3, 3; 3, 5] : Matrix (Fin 2) (Fin 2) ℚ) = fitXtX d3 ["x"] := by
  have h00 := fitXtX_single_00 d3 "x"
  have h01 := fitXtX_single_01 d3 "x"
  have h10 := fitXtX_single_10 d3 "x"
  have h11 := fitXtX_single_11 d3 "x"
  rw [d3_x2] at h01 h10 h11
  rw [d3_len] at h00
  ext i j
  fin_cases i <;> fin_cases j
  · show (3 : ℚ) = fitXtX d3 ["x"] (0 : Fin 2) (0 : Fin 2)
    rw [h00]
    norm_num
  · show (3 : ℚ) = fitXtX d3 ["x"] (0 : Fin 2) (1 : Fin 2)
    rw [h01]
    norm_num
  · show (3 : ℚ) = fitXtX d3 ["x"] (1 : Fin 2) (0 : Fin 2)
    rw [h10]
    norm_num
  · show (5 : ℚ) = fitXtX d3 ["x"] (1 : Fin 2) (1 : Fin 2)
    rw [h11]
    norm_num

lemma d3_det : ¬ |calculateDeterminant (fitXtX d3 ["x"])| < tol := by
  have h : calculateDeterminant (fitXtX d3 ["x"]) =
      fitXtX d3 ["x"] (0 : Fin 2) (0 : Fin 2) *
        fitXtX d3 ["x"] (1 : Fin 2) (1 : Fin 2) -
      fitXtX d3 ["x"] (0 : Fin 2) (1 : Fin 2) *
        fitXtX d3 ["x"] (1 : Fin 2) (0 : Fin 2) := rfl
  rw [h, ← d3_XtX]
  norm_num [tol, Matrix.cons_val_zero, Matrix.cons_val_one, Matrix.head_cons]

lemma d3_inv : calculateMatrixInverse (fitXtX d3 ["x"]) = some H3d := by
  obtain ⟨G, hG⟩ := gaussJordan_two_isSome (fitXtX d3 ["x"])
    (by rw [← d3_XtX]
        norm_num [Matrix.cons_val_zero, Matrix.cons_val_one, Matrix.head_cons])
    (by rw [← d3_XtX]
        norm_num [tol, Matrix.cons_val_zero, Matrix.cons_val_one,
          Matrix.head_cons])
    (by rw [← d3_XtX]
        norm_num [tol, Matrix.cons_val_zero, Matrix.cons_val_one,
          Matrix.head_cons])
  have hGM := calculateMatrixInverse_mul hG
  have hMH : (!![3, 3; 3, 5] : Matrix (Fin 2) (Fin 2) ℚ) * H3d = 1 := by
    ext i j
    fin_cases i <;> fin_cases j <;>
      norm_num [H3d, Matrix.mul_apply, Fin.sum_univ_two, Matrix.cons_val_zero,
        Matrix.cons_val_one, Matrix.head_cons, Matrix.one_apply]
  rw [d3_XtX] at hMH
  have h2 := congrArg (fun X => G * X) hMH
  dsimp only at h2
  rw [← mul_assoc, hGM, one_mul, mul_one] at h2
  rw [hG, ← h2]

lemma d3_Xty0 : fitXty d3 "y" ["x"] (0 : Fin 2) = 4 := by
  rw [fitXty_single_0, d3_y2]
  norm_num

lemma d3_Xty1 : fitXty d3 "y" ["x"] (1 : Fin 2) = 5 := by
  rw [fitXty_single_1, d3_x2, d3_y2]
  norm_num [List.zip_cons_cons]

lemma d3_b0 : H3d.mulVec (fitXty d3 "y" ["x"]) (0 : Fin 2) = 5/6 := by
  show (∑ j : Fin 2, H3d (0 : Fin 2) j * fitXty d3 "y" ["x"] j) = 5/6
  rw [Fin.sum_univ_two, d3_Xty0, d3_Xty1]
  norm_num [H3d, Matrix.cons_val_zero, Matrix.cons_val_one, Matrix.head_cons]

lemma d3_b1 : H3d.mulVec (fitXty d3 "y" ["x"]) (1 : Fin 2) = 1/2 := by
  show (∑ j : Fin 2, H3d (1 : Fin 2) j * fitXty d3 "y" ["x"] j) = 1/2
  rw [Fin.sum_univ_two, d3_Xty0, d3_Xty1]
  norm_num [H3d, Matrix.cons_val_zero, Matrix.cons_val_one, Matrix.head_cons]

lemma d3_Xmul : ∀ r : Fin d3.length,
    (designMatrix d3 ["x"]).mulVec (H3d.mulVec (fitXty d3 "y" ["x"])) r =
      H3d.mulVec (fitXty d3 "y" ["x"]) (0 : Fin 2) +
        getV (d3.get r) "x" * H3d.mulVec (fitXty d3 "y" ["x"]) (1 : Fin 2) := by
  intro r
  show (∑ j : Fin 2, designMatrix d3 ["x"] r j *
      H3d.mulVec (fitXty d3 "y" ["x"]) j) = _
  rw [Fin.sum_univ_two, designMatrix_single_0, designMatrix_single_1, one_mul]

lemma d3_pred : List.ofFn
    ((designMatrix d3 ["x"]).mulVec (H3d.mulVec (fitXty d3 "y" ["x"]))) =
    [5/6, 4/3, 11/6] := by
  have hofn : ∀ f : Fin d3.length → ℚ, List.ofFn f =
      [f ⟨0, by norm_num [d3]⟩, f ⟨1, by norm_num [d3]⟩,
        f ⟨2, by norm_num [d3]⟩] := fun f => rfl
  rw [hofn]
  rw [d3_Xmul, d3_Xmul, d3_Xmul, d3_b0, d3_b1]
  show [(5 : ℚ)/6 + 0 * (1/2), 5/6 + 1 * (1/2), 5/6 + 2 * (1/2)] = _
  norm_num

lemma d3_resid : (List.ofFn fun r : Fin d3.length => yVec d3 "y" r -
    (designMatrix d3 ["x"]).mulVec (H3d.mulVec (fitXty d3 "y" ["x"])) r) =
    [1/6, -(1/3), 1/6] := by
  have hofn : ∀ f : Fin d3.length → ℚ, List.ofFn f =
      [f ⟨0, by norm_num [d3]⟩, f ⟨1, by norm_num [d3]⟩,
        f ⟨2, by norm_num [d3]⟩] := fun f => rfl
  rw [hofn]
  dsimp only
  rw [d3_Xmul, d3_Xmul, d3_Xmul, d3_b0, d3_b1]
  show [(1 : ℚ) - (5/6 + 0 * (1/2)), (1 : ℚ) - (5/6 + 1 * (1/2)),
    (2 : ℚ) - (5/6 + 2 * (1/2))] = _
  norm_num

lemma d3_tss : totalSS d3 "y" = 2/3 := by
  unfold totalSS
  rw [d3_y2]
  norm_num

/-- The concrete values of the successful matrix-path fit on `d3`. -/
lemma d3_ok : ∃ r, multipleFit d3 "y" ["x"] = .ok r ∧
    r.fStatistic = 3 ∧ r.mse = 1/6 ∧ r.coefficients = [5/6, 1/2] ∧
    r.rSquared = 3/4 ∧ r.adjustedRSquared = 1/2 ∧
    r.residuals = [1/6, -(1/3), 1/6] ∧ r.predictions = [5/6, 4/3, 11/6] := by
  have hdf : ¬ ((d3.length : ℤ) - ((["x"].length + 1 : ℕ) : ℤ) ≤ 0) := by
    rw [d3_len]
    norm_num
  unfold multipleFit
  dsimp only
  rw [if_neg d3_det, d3_inv]
  dsimp only
  rw [if_neg hdf]
  refine ⟨_, rfl, ?_, ?_, ?_, ?_, ?_, ?_, ?_⟩
  · dsimp only
    rw [d3_resid, d3_tss, d3_len]
    push_cast
    norm_num
  · dsimp only
    rw [d3_resid, d3_len]
    push_cast
    norm_num
  · dsimp only
    rw [show (List.ofFn (H3d.mulVec (fitXty d3 "y" ["x"]))) =
      [H3d.mulVec (fitXty d3 "y" ["x"]) (0 : Fin 2),
        H3d.mulVec (fitXty d3 "y" ["x"]) (1 : Fin 2)] from rfl, d3_b0, d3_b1]
  · dsimp only
    rw [d3_resid, d3_tss]
    norm_num
  · dsimp only
    rw [d3_resid, d3_tss, d3_len]
    push_cast
    norm_num
  · dsimp only
    rw [d3_resid]
  · dsimp only
    rw [d3_pred]

lemma d8_nested0 : vifNestedR2 d8 ["x1", "x2"] (0 : Fin 2) = 0 := by
  unfold vifNestedR2
  dsimp only
  rw [show ((["x1", "x2"] : List String).get (0 : Fin 2)) = "x1" from rfl,
    show ((["x1", "x2"] : List String).eraseIdx ((0 : Fin 2) : ℕ)) = ["x2"]
      from rfl,
    d8_x1,
    show (["x2"] : List String).headI = "x2" from rfl, d8_x2]
  rw [if_neg (by norm_num [List.map_cons, List.map_nil, List.sum_cons,
    List.sum_nil, List.length_cons, List.length_nil])]
  rw [if_pos (show (["x2"] : List String).length = 1 from rfl)]
  rw [if_neg (by norm_num [List.map_cons, List.map_nil, List.sum_cons,
    List.sum_nil, List.length_cons, List.length_nil])]
  norm_num [List.map_cons, List.map_nil, List.sum_cons, List.sum_nil,
    List.length_cons, List.length_nil, List.zip_cons_cons]

lemma d8_nested1 : vifNestedR2 d8 ["x1", "x2"] (1 : Fin 2) = 0 := by
  unfold vifNestedR2
  dsimp only
  rw [show ((["x1", "x2"] : List String).get (1 : Fin 2)) = "x2" from rfl,
    show ((["x1", "x2"] : List String).eraseIdx ((1 : Fin 2) : ℕ)) = ["x1"]
      from rfl,
    d8_x2,
    show (["x1"] : List String).headI = "x1" from rfl, d8_x1]
  rw [if_neg (by norm_num [List.map_cons, List.map_nil, List.sum_cons,
    List.sum_nil, List.length_cons, List.length_nil])]
  rw [if_pos (show (["x1"] : List String).length = 1 from rfl)]
  rw [if_neg (by norm_num [List.map_cons, List.map_nil, List.sum_cons,
    List.sum_nil, List.length_cons, List.length_nil])]
  norm_num [List.map_cons, List.map_nil, List.sum_cons, List.sum_nil,
    List.length_cons, List.length_nil, List.zip_cons_cons]

lemma d8_vif0 : vifFor d8 ["x1", "x2"] (0 : Fin 2) = 1000/999 := by
  unfold vifFor
  dsimp only
  rw [show ((["x1", "x2"] : List String).get (0 : Fin 2)) = "x1" from rfl,
    show ((["x1", "x2"] : List String).eraseIdx ((0 : Fin 2) : ℕ)) = ["x2"]
      from rfl,
    d8_x1,
    show (["x2"] : List String).headI = "x2" from rfl, d8_x2]
  rw [if_neg (by norm_num [List.map_cons, List.map_nil, List.sum_cons,
    List.sum_nil, List.length_cons, List.length_nil])]
  rw [if_pos (show (["x2"] : List String).length = 1 from rfl)]
  rw [if_neg (by norm_num [List.map_cons, List.map_nil, List.sum_cons,
    List.sum_nil, List.length_cons, List.length_nil])]
  rw [d8_nested0]
  norm_num [max_def]

lemma d8_vif1 : vifFor d8 ["x1", "x2"] (1 : Fin 2) = 1000/999 := by
  unfold vifFor
  dsimp only
  rw [show ((["x1", "x2"] : List String).get (1 : Fin 2)) = "x2" from rfl,
    show ((["x1", "x2"] : List String).eraseIdx ((1 : Fin 2) : ℕ)) = ["x1"]
      from rfl,
    d8_x2,
    show (["x1"] : List String).headI = "x1" from rfl, d8_x1]
  rw [if_neg (by norm_num [List.map_cons, List.map_nil, List.sum_cons,
    List.sum_nil, List.length_cons, List.length_nil])]
  rw [if_pos (show (["x1"] : List String).length = 1 from rfl)]
  rw [if_neg (by norm_num [List.map_cons, List.map_nil, List.sum_cons,
    List.sum_nil, List.length_cons, List.length_nil])]
  rw [d8_nested1]
  norm_num [max_def]

/-- The diagnostic suite on `d8`: both VIF values are `1000/999`. -/
lemma d8_vifs : calculateVIF d8 ["x1", "x2"] =
    some [("x1", 1000/999), ("x2", 1000/999)] := by
  unfold calculateVIF
  rw [if_neg (by norm_num)]
  show some [("x1", vifFor d8 ["x1", "x2"] (0 : Fin 2)),
    ("x2", vifFor d8 ["x1", "x2"] (1 : Fin 2))] =
    some [("x1", 1000/999), ("x2", 1000/999)]
  rw [d8_vif0, d8_vif1]

/-- Every branch of `vifFor` returns a value that is at least `1`. -/
lemma vifFor_ge_one (data : List DataPoint) (indeps : List String)
    (i : Fin indeps.length) : 1 ≤ vifFor data indeps i := by
  unfold vifFor
  dsimp only
  split_ifs <;> first | exact le_refl 1 | exact le_max_right _ 1

/-! ### The claims -/

/-- C1. For a dataset with 3 valid rows and 3 independent variables the fit
always fails, but with the `degenerateDesign` (multicollinearity) error of
the determinant guard, which fires before the degrees-of-freedom check: with
`p = 4 > n = 3` the normal matrix `XᵗX` is singular, so `insufficientData`
is unreachable. -/
theorem C1_wide_design_fails_degenerate (data : List DataPoint)
    (dep : String) (indeps : List String) (h3 : indeps.length = 3)
    (hv : (validRows data dep indeps).length = 3) :
    runFit data dep indeps = .error .degenerateDesign :=
  runFit_wide data dep indeps (by omega) (by omega) (by omega)

/-- C1, witness: the concrete 3×3-regressor dataset `d1`. -/
theorem C1_wide_design_witness :
    runFit d1 "y" ["a", "b", "c"] = .error .degenerateDesign :=
  C1_wide_design_fails_degenerate d1 "y" ["a", "b", "c"] rfl rfl

/-- C1, counterexample to the claimed error kind: on `d1` the fit fails with
`degenerateDesign`, not `insufficientData`. -/
theorem C1_counterexample :
    runFit d1 "y" ["a", "b", "c"] = .error .degenerateDesign ∧
    (Except.error RegError.degenerateDesign :
        Except RegError RegressionResult) ≠ .error .insufficientData := by
  refine ⟨runFit_wide d1 "y" ["a", "b", "c"] (by decide) (by decide)
    (by decide), ?_⟩
  intro h
  exact absurd (Except.error.inj h) (by decide)

/-- C2. A zero total sum of squares does not make the fit fail: the
single-regressor path has no such guard (and the error taxonomy has no
degenerate-response kind at all), so the fit succeeds and `R²` is computed
by dividing by the zero `SS_tot`. -/
theorem C2_zero_variance_fit_succeeds (data : List DataPoint)
    (dep x : String) (h2 : 2 ≤ (validRows data dep [x]).length)
    (htss : totalSS (validRows data dep [x]) dep = 0) :
    runFit data dep [x] = .ok (singleVarFit (validRows data dep [x]) dep x) := by
  unfold runFit
  dsimp only
  rw [if_neg (by omega), if_pos (show ([x] : List String).length = 1 from rfl)]
  rfl

/-- C2, witness: the constant-response dataset `d2`. -/
theorem C2_zero_variance_witness :
    totalSS (validRows d2 "y" ["x"]) "y" = 0 ∧
    runFit d2 "y" ["x"] = .ok (singleVarFit (validRows d2 "y" ["x"]) "y" "x") :=
  ⟨d2_tss, C2_zero_variance_fit_succeeds d2 "y" "x" (by decide) d2_tss⟩

/-- C2, counterexample to the claimed failure: on `d2` the dependent column
is constant (`SS_tot = 0`) yet the fit returns a `RegressionResult`. -/
theorem C2_counterexample :
    totalSS (validRows d2 "y" ["x"]) "y" = 0 ∧
    ∃ r, runFit d2 "y" ["x"] = .ok r :=
  ⟨d2_tss, ⟨singleVarFit (validRows d2 "y" ["x"]) "y" "x", rfl⟩⟩

/-- C3. Whenever the matrix path succeeds on a single-regressor selection,
the closed-form path agrees with it on coefficients, predictions, residuals,
R², adjusted R² and MSE — but its inference outputs are hard-coded zeros
(`standardErrors`, `tValues`, `pValues`, `fStatistic`), so the two paths do
not agree on those. -/
theorem C3_single_matches_matrix_shared_fields {data : List DataPoint}
    {dep x : String} {r2 : RegressionResult}
    (h : multipleFit (validRows data dep [x]) dep [x] = .ok r2) :
    (singleVarFit (validRows data dep [x]) dep x).coefficients =
        r2.coefficients ∧
    (singleVarFit (validRows data dep [x]) dep x).predictions =
        r2.predictions ∧
    (singleVarFit (validRows data dep [x]) dep x).residuals = r2.residuals ∧
    (singleVarFit (validRows data dep [x]) dep x).rSquared = r2.rSquared ∧
    (singleVarFit (validRows data dep [x]) dep x).adjustedRSquared =
        r2.adjustedRSquared ∧
    (singleVarFit (validRows data dep [x]) dep x).mse = r2.mse ∧
    (singleVarFit (validRows data dep [x]) dep x).fStatistic = 0 ∧
    (singleVarFit (validRows data dep [x]) dep x).standardErrors = [0, 0] ∧
    (singleVarFit (validRows data dep [x]) dep x).tValues = [0, 0] ∧
    (singleVarFit (validRows data dep [x]) dep x).pValues = [0, 0] := by
  obtain ⟨h1, h2, h3, h4, h5, h6⟩ := single_eq_multiple h
  exact ⟨h1, h2, h3, h4, h5, h6, rfl, rfl, rfl, rfl⟩

/-- C3, witness: on `d3` both paths produce the same MSE and coefficients. -/
theorem C3_single_matches_matrix_witness :
    ∃ r2, multipleFit (validRows d3 "y" ["x"]) "y" ["x"] = .ok r2 ∧
      (singleVarFit (validRows d3 "y" ["x"]) "y" "x").mse = r2.mse ∧
      (singleVarFit (validRows d3 "y" ["x"]) "y" "x").coefficients =
        r2.coefficients := by
  obtain ⟨r, hr, _⟩ := d3_ok
  have hr2 : multipleFit (validRows d3 "y" ["x"]) "y" ["x"] = .ok r := by
    rw [d3_valid]
    exact hr
  exact ⟨r, hr2, (C3_single_matches_matrix_shared_fields hr2).2.2.2.2.2.1,
    (C3_single_matches_matrix_shared_fields hr2).1⟩

/-- C3, counterexample to full agreement: on `d3` the matrix path's
F-statistic is `3` while the closed-form path hard-codes `0`. -/
theorem C3_counterexample :
    ∃ r, multipleFit (validRows d3 "y" ["x"]) "y" ["x"] = .ok r ∧
      (singleVarFit (validRows d3 "y" ["x"]) "y" "x").fStatistic = 0 ∧
      r.fStatistic = 3 ∧ (3 : ℚ) ≠ 0 := by
  obtain ⟨r, hr, hF, _⟩ := d3_ok
  refine ⟨r, ?_, rfl, hF, by norm_num⟩
  rw [d3_valid]
  exact hr

/-- C4. Every successful fit — the design matrix always carries the constant
intercept column — has residuals summing to exactly 0. -/
theorem C4_residuals_sum_zero {data : List DataPoint} {dep : String}
    {indeps : List String} {r : RegressionResult}
    (h : runFit data dep indeps = .ok r) : r.residuals.sum = 0 :=
  runFit_residual_sum h

/-- C4, witness: the fit on `d3`. -/
theorem C4_residuals_sum_zero_witness :
    (singleVarFit (validRows d3 "y" ["x"]) "y" "x").residuals.sum = 0 :=
  C4_residuals_sum_zero (show runFit d3 "y" ["x"] =
    .ok (singleVarFit (validRows d3 "y" ["x"]) "y" "x") from rfl)

/-- C5. `calculateDeterminant` always returns a scalar that is either the
true determinant or exactly `0`; a mathematically singular input is always
reported as exactly `0` (the sub-tolerance pivot path), and the 2×2 identity
matrix has determinant `1` and is its own inverse. -/
theorem C5_determinant_contract {n : ℕ} (M : Matrix (Fin n) (Fin n) ℚ) :
    (calculateDeterminant M = M.det ∨ calculateDeterminant M = 0) ∧
    (M.det = 0 → calculateDeterminant M = 0) ∧
    calculateDeterminant (1 : Matrix (Fin 2) (Fin 2) ℚ) = 1 ∧
    calculateMatrixInverse (1 : Matrix (Fin 2) (Fin 2) ℚ) = some 1 := by
  refine ⟨calculateDeterminant_spec M, calculateDeterminant_eq_zero M, ?_, ?_⟩
  · have h : calculateDeterminant (1 : Matrix (Fin 2) (Fin 2) ℚ) =
        (1 : Matrix (Fin 2) (Fin 2) ℚ) 0 0 * (1 : Matrix (Fin 2) (Fin 2) ℚ) 1 1 -
        (1 : Matrix (Fin 2) (Fin 2) ℚ) 0 1 * (1 : Matrix (Fin 2) (Fin 2) ℚ) 1 0 :=
      rfl
    rw [h]
    norm_num [Matrix.one_apply]
  · obtain ⟨G, hG⟩ := gaussJordan_two_isSome (1 : Matrix (Fin 2) (Fin 2) ℚ)
      (by norm_num [Matrix.one_apply])
      (by norm_num [Matrix.one_apply, tol])
      (by norm_num [Matrix.one_apply, tol])
    have hG1 : G = 1 := by
      have h1 := calculateMatrixInverse_mul hG
      rwa [mul_one] at h1
    rw [hG, hG1]

/-- C6. The estimator performs no partial state update: either the stored
`RegressionResult` is untouched (every failure path, including the early
invalid-selection return), or the fit succeeded and the whole new result is
committed along with clearing the error. -/
theorem C6_no_partial_update (s : DataState) :
    (runRegressionImmediate s).regressionResult = s.regressionResult ∨
    ∃ r, runFit s.parsedData s.dependentVariable s.independentVariables =
        .ok r ∧
      runRegressionImmediate s =
        { s with regressionResult := some r, isLoading := false,
                 error := none } := by
  unfold runRegressionImmediate
  by_cases hc : (s.parsedData.isEmpty || s.dependentVariable == "" ||
      s.independentVariables.isEmpty) = true
  · rw [if_pos hc]
    left
    rfl
  · rw [if_neg hc]
    cases hfit : runFit s.parsedData s.dependentVariable
        s.independentVariables with
    | ok r =>
      right
      exact ⟨r, rfl, rfl⟩
    | error e =>
      left
      rfl

/-- C7. The Durbin-Watson statistic is `Σ(eᵢ − eᵢ₋₁)² / Σeᵢ²`, the
independence status is `good` exactly when `1.5 ≤ DW ≤ 2.5`, and on the
alternating residuals `[1,−1,1,−1,1]` the statistic is `16/5 = 3.2` (strong
negative autocorrelation), classified `warning`. -/
theorem C7_durbin_watson :
    (∀ es : List ℚ, independenceStatus es = .good ↔
      (3 / 2 ≤ dwStatistic es ∧ dwStatistic es ≤ 5 / 2)) ∧
    dwStatistic [1, -1, 1, -1, 1] = 16 / 5 ∧
    independenceStatus [1, -1, 1, -1, 1] = .warning := by
  have hdw : dwStatistic [1, -1, 1, -1, 1] = 16 / 5 := by
    unfold dwStatistic
    norm_num [List.tail_cons, List.zip_cons_cons, List.map_cons, List.map_nil,
      List.sum_cons, List.sum_nil]
  refine ⟨fun es => ?_, hdw, ?_⟩
  · unfold independenceStatus
    by_cases hc : (3 / 2 ≤ dwStatistic es ∧ dwStatistic es ≤ 5 / 2)
    · rw [if_pos hc]
      exact ⟨fun _ => hc, fun _ => rfl⟩
    · rw [if_neg hc]
      refine ⟨fun h => ?_, fun h => absurd h hc⟩
      exact absurd h (by decide)
  · unfold independenceStatus
    rw [hdw, if_neg (by norm_num)]

/-- The VIF formula exactly as the spec words it: `1/(1 − R²)` floored at
`1` (no inner clamp of `R²`). -/
def specVifOfR2 (r2 : ℚ) : ℚ := max (1 / (1 - r2)) 1

/-- C8. Every VIF value the diagnostic suite produces is at least 1, and the
per-variable value is `1` on the degenerate-input paths — but the formula
used is `1/(1 − max(R², 0.001))` floored at 1, not the spec's
`1/(1 − R²)`. -/
theorem C8_vif_at_least_one (data : List DataPoint) (indeps : List String)
    (i : Fin indeps.length) :
    1 ≤ vifFor data indeps i ∧
    ∀ l pr, calculateVIF data indeps = some l → pr ∈ l → 1 ≤ pr.2 := by
  refine ⟨vifFor_ge_one data indeps i, ?_⟩
  intro l pr hl hpr
  unfold calculateVIF at hl
  by_cases hlen : indeps.length < 2
  · rw [if_pos hlen] at hl
    exact absurd hl (by simp)
  · rw [if_neg hlen] at hl
    injection hl with hl
    rw [← hl] at hpr
    obtain ⟨j, hj⟩ := (List.mem_ofFn _ _).mp hpr
    rw [← hj]
    exact vifFor_ge_one data indeps j

/-- C8, counterexample to the claimed formula: on `d8` the nested `R²` is
`0`, the spec's formula gives `1`, but the code produces `1000/999` because
of the `max(R², 0.001)` clamp. -/
theorem C8_counterexample :
    vifNestedR2 d8 ["x1", "x2"] (0 : Fin 2) = 0 ∧
    specVifOfR2 (vifNestedR2 d8 ["x1", "x2"] (0 : Fin 2)) = 1 ∧
    vifFor d8 ["x1", "x2"] (0 : Fin 2) = 1000 / 999 ∧
    calculateVIF d8 ["x1", "x2"] =
      some [("x1", 1000 / 999), ("x2", 1000 / 999)] ∧
    (1000 / 999 : ℚ) ≠ 1 := by
  refine ⟨d8_nested0, ?_, d8_vif0, d8_vifs, by norm_num⟩
  rw [d8_nested0]
  norm_num [specVifOfR2, max_def]

/-- C9. The two-sided p-value is `2·(1 − tDistributionCDF(|t|, df))` for
every `t` and `df`, and for `df > 30` the CDF delegates to the
logistic-style normal approximation. -/
theorem C9_p_value_and_cdf :
    (∀ t df : ℝ, calculatePValue t df =
      2 * (1 - tDistributionCDF |t| df)) ∧
    ∀ t df : ℝ, 30 < df → tDistributionCDF t df = normalCDFApprox t := by
  constructor
  · intro t df
    rfl
  · intro t df h
    unfold tDistributionCDF normalCDFApprox
    rw [if_neg (by linarith), if_pos h]

/-- C10. The single-regressor path has no degrees-of-freedom guard: with
exactly 2 valid rows it succeeds, and both `mse` and the adjusted `R²` are
computed by dividing by `singleDfDen n = n − 2 = 0`. -/
theorem C10_single_path_divides_by_zero (data : List DataPoint)
    (dep x : String) (h2 : (validRows data dep [x]).length = 2) :
    runFit data dep [x] =
      .ok (singleVarFit (validRows data dep [x]) dep x) ∧
    singleDfDen (validRows data dep [x]).length = 0 ∧
    (singleVarFit (validRows data dep [x]) dep x).mse =
      ((singleVarFit (validRows data dep [x]) dep x).residuals.map
        fun e => e * e).sum / singleDfDen (validRows data dep [x]).length ∧
    (singleVarFit (validRows data dep [x]) dep x).adjustedRSquared =
      1 - ((1 - (singleVarFit (validRows data dep [x]) dep x).rSquared) *
        (((validRows data dep [x]).length : ℚ) - 1)) /
        singleDfDen (validRows data dep [x]).length := by
  refine ⟨?_, ?_, ?_, ?_⟩
  · unfold runFit
    dsimp only
    rw [if_neg (by omega),
      if_pos (show ([x] : List String).length = 1 from rfl)]
    rfl
  · rw [h2]
    norm_num [singleDfDen]
  · unfold singleVarFit
    dsimp only
    simp only [colVals_length]
  · unfold singleVarFit
    dsimp only
    simp only [colVals_length]

/-- C10, witness: the two-row dataset `d10`. -/
theorem C10_divides_by_zero_witness :
    (validRows d10 "y" ["x"]).length = 2 ∧
    runFit d10 "y" ["x"] =
      .ok (singleVarFit (validRows d10 "y" ["x"]) "y" "x") ∧
    singleDfDen (validRows d10 "y" ["x"]).length = 0 :=
  ⟨rfl, (C10_single_path_divides_by_zero d10 "y" "x" rfl).1,
    (C10_single_path_divides_by_zero d10 "y" "x" rfl).2.1⟩

end HyperViz
